import Mathlib

/-!
AppDeployer: the `Reconcile` pass of `AppDeploymentReconciler`

A shallow embedding of `controllers/appdeployment_controller.go`.

* Kubernetes / OpenShift objects are records holding the fields the controller reads or
  writes.  A Go pointer field is an `Option` (`none` is `nil`), a Go map that may be `nil`
  is an `Option` of an association list.
* The API client (`client.Client`) is external to the repository.  It is modelled as a
  key-value store together with a fault oracle: the n-th store call of a pass fails with the
  error the oracle gives for `n`, and has no effect then; otherwise it succeeds and has its
  effect on the store.  Every store call is recorded in a log.
* A Go runtime panic (nil pointer dereference, index out of range, assignment to an entry
  of a nil map) is an explicit outcome of the pass.
* `int64` arithmetic wraps modulo `2^64`.
-/

set_option autoImplicit false
set_option maxRecDepth 100000

namespace AppDeployer

/-! ## Strings -/

/-- The pieces of a character list between occurrences of `sep`
(the worker of `strings.Split` for a one-byte separator). -/
def splitChars (sep : Char) : List Char → List (List Char)
  | [] => [[]]
  | c :: cs =>
    if c = sep then [] :: splitChars sep cs
    else
      match splitChars sep cs with
      | [] => [[c]]
      | p :: ps => (c :: p) :: ps

/-- Go `strings.Split(s, sep)` for a one-byte separator: all substrings between
separators; a string without separator gives the one-element list `[s]`. -/
def Split (s : String) (sep : Char) : List String :=
  (splitChars sep s.data).map String.mk

/-- Go `strings.Join(elems, sep)`. -/
def Join : List String → String → String
  | [], _ => ""
  | [a], _ => a
  | a :: b :: rest, sep => a ++ sep ++ Join (b :: rest) sep

/-- Go `strconv.Itoa`: the decimal representation of an integer. -/
def Itoa : Int → String
  | Int.ofNat m => Nat.repr m
  | Int.negSucc m => "-" ++ Nat.repr (m + 1)

/-- Two's complement wrap-around of `int64` arithmetic. -/
def wrapInt64 (x : Int) : Int := (x + 2 ^ 63) % 2 ^ 64 - 2 ^ 63

/-! ## Go maps with string keys and values -/

/-- A non-nil `map[string]string`, as an association list with distinct keys. -/
abbrev GoMap := List (String × String)

/-- Map read `m[k]` with the comma-ok result. -/
def mapLookup (m : GoMap) (k : String) : Option String :=
  (m.find? (fun p => p.1 = k)).map (fun p => p.2)

/-- Map write `m[k] = v`. -/
def mapSet (m : GoMap) (k v : String) : GoMap :=
  if m.any (fun p => p.1 = k) then m.map (fun p => if p.1 = k then (k, v) else p)
  else m ++ [(k, v)]

/-! ## Objects (the fields of the API types that `Reconcile` touches) -/

/-- The type `corev1.ObjectReference`. -/
structure ObjectReference where
  Kind : String
  Name : String
  deriving DecidableEq, Repr

/-- The type `buildv1.GitBuildSource`. -/
structure GitBuildSource where
  URI : String
  Ref : String
  deriving DecidableEq, Repr

/-- The type `buildv1.BuildSource`; `Git` is a pointer. -/
structure BuildSource where
  Type_ : String
  Git : Option GitBuildSource
  deriving DecidableEq, Repr

/-- The type `buildv1.BuildOutput`; `To` is a pointer. -/
structure BuildOutput where
  To : Option ObjectReference
  deriving DecidableEq, Repr

/-- The type `buildv1.CommonSpec`. -/
structure CommonSpec where
  Source : BuildSource
  Output : BuildOutput
  deriving DecidableEq, Repr

/-- The type `buildv1.BuildConfigSpec`, which embeds `CommonSpec`. -/
structure BuildConfigSpec where
  CommonSpec : CommonSpec
  deriving DecidableEq, Repr

/-- The type `buildv1.BuildConfigStatus`; `LastVersion` is an `int64`. -/
structure BuildConfigStatus where
  LastVersion : Int
  deriving DecidableEq, Repr

/-- The type `buildv1.BuildConfig`, type and object metadata flattened. -/
structure BuildConfig where
  APIVersion : String
  Kind : String
  Name : String
  Namespace : String
  UID : String
  Labels : Option GoMap
  Spec : BuildConfigSpec
  Status : BuildConfigStatus
  deriving DecidableEq, Repr

/-- The type `metav1.OwnerReference`; `Controller` is a pointer to a bool. -/
structure OwnerReference where
  APIVersion : String
  Kind : String
  Name : String
  UID : String
  Controller : Option Bool
  deriving DecidableEq, Repr

/-- The type `buildv1.BuildTriggerCause`. -/
structure BuildTriggerCause where
  Message : String
  deriving DecidableEq, Repr

/-- The type `buildv1.BuildSpec`. -/
structure BuildSpec where
  CommonSpec : CommonSpec
  TriggeredBy : List BuildTriggerCause
  deriving DecidableEq, Repr

/-- The type `buildv1.Build`, object metadata flattened. -/
structure Build where
  Name : String
  Namespace : String
  Labels : Option GoMap
  Annotations : Option GoMap
  OwnerReferences : List OwnerReference
  Spec : BuildSpec
  deriving DecidableEq, Repr

/-- The type `appsv1.DeploymentTriggerImageChangeParams`. -/
structure DeploymentTriggerImageChangeParams where
  Automatic : Bool
  From : ObjectReference
  deriving DecidableEq, Repr

/-- The type `appsv1.DeploymentTriggerPolicy`; `ImageChangeParams` is a pointer. -/
structure DeploymentTriggerPolicy where
  Type_ : String
  ImageChangeParams : Option DeploymentTriggerImageChangeParams
  deriving DecidableEq, Repr

/-- The type `appsv1.DeploymentConfigSpec`. -/
structure DeploymentConfigSpec where
  Triggers : List DeploymentTriggerPolicy
  deriving DecidableEq, Repr

/-- The type `appsv1.DeploymentConfig`, object metadata flattened. -/
structure DeploymentConfig where
  Name : String
  Namespace : String
  Spec : DeploymentConfigSpec
  deriving DecidableEq, Repr

/-- The type `v1.ConfigMap`; `Data` is only read, so a nil map is the empty list. -/
structure ConfigMap where
  Name : String
  Namespace : String
  Data : GoMap
  deriving DecidableEq, Repr

/-! ## Constants of `github.com/openshift/api` used by the controller -/

/-- Constant `buildv1.BuildConfigLabelDeprecated`. -/
def BuildConfigLabelDeprecated : String := "buildconfig"
/-- Constant `buildv1.BuildConfigLabel`. -/
def BuildConfigLabel : String := "openshift.io/build-config.name"
/-- Constant `buildv1.BuildRunPolicyLabel`. -/
def BuildRunPolicyLabel : String := "openshift.io/build.start-policy"
/-- Constant `buildv1.BuildRunPolicySerialLatestOnly`. -/
def BuildRunPolicySerialLatestOnly : String := "SerialLatestOnly"
/-- Constant `buildv1.BuildConfigAnnotation`. -/
def BuildConfigAnnotation : String := "openshift.io/build-config.name"
/-- Constant `buildv1.BuildNumberAnnotation`. -/
def BuildNumberAnnotation : String := "openshift.io/build.number"
/-- Constant `buildv1.BuildPodNameAnnotation`. -/
def BuildPodNameAnnotation : String := "openshift.io/build.pod-name"
/-- Constant `appsv1.DeploymentTriggerOnImageChange`. -/
def DeploymentTriggerOnImageChange : String := "ImageChange"

/-! ## The object store client -/

/-- Errors a store call can return. -/
inductive StoreError where
  | NotFound
  | AlreadyExists
  | Conflict
  | Transient
  deriving DecidableEq, Repr

/-- The function `client.IgnoreNotFound`, applied to a non-nil error: nil for a
not-found error, the error itself otherwise. -/
def IgnoreNotFound : StoreError → Option StoreError
  | StoreError.NotFound => none
  | e => some e

/-- A store call made by `Reconcile`. -/
inductive Call where
  | Get (ns name : String)
  | ListBuildConfigs (ns : String)
  | UpdateBuildConfig (v : BuildConfig)
  | CreateBuild (b : Build)
  | ListDeploymentConfigs (ns : String)
  | UpdateDeploymentConfig (v : DeploymentConfig)
  deriving DecidableEq, Repr

/-- A logged store call with its result (`none` is success). -/
structure Event where
  call : Call
  err : Option StoreError
  deriving DecidableEq, Repr

/-- The contents of the object store. -/
structure Store where
  configMaps : List ConfigMap
  buildConfigs : List BuildConfig
  builds : List Build
  deploymentConfigs : List DeploymentConfig
  deriving DecidableEq, Repr

/-- The client: the store, the log of the calls made so far, and the fault oracle. -/
structure Client where
  store : Store
  log : List Event
  faults : Nat → Option StoreError

/-- Append a call and its result to the log. -/
def Client.record (c : Client) (call : Call) (err : Option StoreError) : Client :=
  { c with log := c.log ++ [⟨call, err⟩] }

/-- Replace the stored BuildConfig that has the namespace and name of `v`. -/
def Store.putBuildConfig (s : Store) (v : BuildConfig) : Store :=
  { s with buildConfigs :=
      (s.buildConfigs.map (fun x => if x.Namespace = v.Namespace ∧ x.Name = v.Name then v else x)) }

/-- Replace the stored DeploymentConfig that has the namespace and name of `v`. -/
def Store.putDeploymentConfig (s : Store) (v : DeploymentConfig) : Store :=
  { s with deploymentConfigs :=
      (s.deploymentConfigs.map
        (fun x => if x.Namespace = v.Namespace ∧ x.Name = v.Name then v else x)) }

/-- Add a Build to the store. -/
def Store.addBuild (s : Store) (b : Build) : Store :=
  { s with builds := s.builds ++ [b] }

/-- Call `r.Get(ctx, key, &config)`: not-found when the store has no such ConfigMap. -/
def Client.Get (c : Client) (ns name : String) : Client × Except StoreError ConfigMap :=
  match c.faults c.log.length with
  | some e => (c.record (Call.Get ns name) (some e), Except.error e)
  | none =>
    match c.store.configMaps.find? (fun m => m.Namespace = ns ∧ m.Name = name) with
    | none =>
      (c.record (Call.Get ns name) (some StoreError.NotFound), Except.error StoreError.NotFound)
    | some m => (c.record (Call.Get ns name) none, Except.ok m)

/-- Call `r.List(ctx, &buildConfigs, client.InNamespace(ns))`. -/
def Client.ListBuildConfigs (c : Client) (ns : String) :
    Client × Except StoreError (List BuildConfig) :=
  match c.faults c.log.length with
  | some e => (c.record (Call.ListBuildConfigs ns) (some e), Except.error e)
  | none =>
    (c.record (Call.ListBuildConfigs ns) none,
      Except.ok (c.store.buildConfigs.filter (fun x => x.Namespace = ns)))

/-- Call `r.List(ctx, &deployConfigs, client.InNamespace(ns))`. -/
def Client.ListDeploymentConfigs (c : Client) (ns : String) :
    Client × Except StoreError (List DeploymentConfig) :=
  match c.faults c.log.length with
  | some e => (c.record (Call.ListDeploymentConfigs ns) (some e), Except.error e)
  | none =>
    (c.record (Call.ListDeploymentConfigs ns) none,
      Except.ok (c.store.deploymentConfigs.filter (fun x => x.Namespace = ns)))

/-- Call `r.Update(ctx, &v)` on a BuildConfig. -/
def Client.UpdateBuildConfig (c : Client) (v : BuildConfig) : Client × Option StoreError :=
  match c.faults c.log.length with
  | some e => (c.record (Call.UpdateBuildConfig v) (some e), some e)
  | none =>
    ({ c with store := c.store.putBuildConfig v,
              log := c.log ++ [⟨Call.UpdateBuildConfig v, none⟩] }, none)

/-- Call `r.Create(ctx, &build)`. -/
def Client.CreateBuild (c : Client) (b : Build) : Client × Option StoreError :=
  match c.faults c.log.length with
  | some e => (c.record (Call.CreateBuild b) (some e), some e)
  | none =>
    ({ c with store := c.store.addBuild b,
              log := c.log ++ [⟨Call.CreateBuild b, none⟩] }, none)

/-- Call `r.Update(ctx, &v)` on a DeploymentConfig. -/
def Client.UpdateDeploymentConfig (c : Client) (v : DeploymentConfig) :
    Client × Option StoreError :=
  match c.faults c.log.length with
  | some e => (c.record (Call.UpdateDeploymentConfig v) (some e), some e)
  | none =>
    ({ c with store := c.store.putDeploymentConfig v,
              log := c.log ++ [⟨Call.UpdateDeploymentConfig v, none⟩] }, none)

/-! ## Control flow -/

/-- Go runtime panics that `Reconcile` can raise. -/
inductive PanicKind where
  | nilPointer
  | indexOutOfRange
  | nilMap
  deriving DecidableEq, Repr

/-- How a pass ends: `return ctrl.Result{}, err`, or a runtime panic. -/
inductive Outcome where
  | returned (err : Option StoreError)
  | panicked (p : PanicKind)
  deriving DecidableEq, Repr

/-- The result of one loop iteration: go on with the next item, or leave `Reconcile`. -/
inductive Flow where
  | next
  | stop (o : Outcome)
  deriving DecidableEq, Repr

/-- The result of the store-free part of an iteration: `continue`, panic, or a value to
be written. -/
inductive Step (α : Type) where
  | skip
  | panic (p : PanicKind)
  | go (a : α)
  deriving DecidableEq, Repr

/-! ## The reconciler -/

/-- The configuration of `AppDeploymentReconciler`. -/
structure AppDeploymentReconciler where
  CfgMapName : String
  CfgMapKey : String
  deriving DecidableEq, Repr

/-- The request `ctrl.Request`: a namespaced name. -/
structure Request where
  Namespace : String
  Name : String
  deriving DecidableEq, Repr

/-- Lines 87-99 of `Reconcile`: decide whether the BuildConfig `v` is to be changed and
compute the changed object. -/
def rewriteBuildConfig (desiredVersion : String) (v : BuildConfig) : Step BuildConfig :=
  match v.Spec.CommonSpec.Output.To with
  | none => Step.panic PanicKind.nilPointer
  | some target =>
    let targetParts := Split target.Name ':'
    if v.Spec.CommonSpec.Source.Type_ ≠ "Git" then Step.skip
    else
      match targetParts with
      | repo :: tag :: _ =>
        if tag = desiredVersion then Step.skip
        else
          match v.Spec.CommonSpec.Source.Git with
          | none => Step.panic PanicKind.nilPointer
          | some git =>
            Step.go
              { v with
                Spec := { CommonSpec :=
                  { Source := { v.Spec.CommonSpec.Source with
                                Git := some { git with Ref := desiredVersion } },
                    Output := { To := some { target with
                                Name := Join [repo, desiredVersion] ":" } } } },
                Status := { LastVersion := wrapInt64 (v.Status.LastVersion + 1) } }
      | _ => Step.panic PanicKind.indexOutOfRange

/-- Lines 105-136 of `Reconcile`: the Build made for the updated BuildConfig `v`. -/
def newBuild (v : BuildConfig) : Except PanicKind Build :=
  let buildNumber := Itoa v.Status.LastVersion
  let buildName := v.Name ++ "-" ++ buildNumber
  match v.Labels with
  | none => Except.error PanicKind.nilMap
  | some labels0 =>
    let labels1 := mapSet labels0 BuildConfigLabelDeprecated v.Name
    let labels2 := mapSet labels1 BuildConfigLabel v.Name
    let labels := mapSet labels2 BuildRunPolicyLabel BuildRunPolicySerialLatestOnly
    let annotations0 : GoMap := []
    let annotations1 := mapSet annotations0 BuildConfigAnnotation v.Name
    let annotations2 := mapSet annotations1 BuildNumberAnnotation buildNumber
    let annotations := mapSet annotations2 BuildPodNameAnnotation (buildName ++ "-build")
    Except.ok
      { Name := buildName,
        Namespace := v.Namespace,
        Labels := some labels,
        Annotations := some annotations,
        OwnerReferences :=
          [{ APIVersion := v.APIVersion, Kind := v.Kind, Name := v.Name, UID := v.UID,
             Controller := some true }],
        Spec := { CommonSpec := v.Spec.CommonSpec,
                  TriggeredBy := [{ Message := "AppDeployer" }] } }

/-- One iteration of the loop over `buildConfigs.Items` (lines 86-142). -/
def buildConfigBody (desiredVersion : String) (v : BuildConfig) (c : Client) :
    Client × Flow :=
  match rewriteBuildConfig desiredVersion v with
  | Step.skip => (c, Flow.next)
  | Step.panic p => (c, Flow.stop (Outcome.panicked p))
  | Step.go v1 =>
    match c.UpdateBuildConfig v1 with
    | (c1, some err) => (c1, Flow.stop (Outcome.returned (IgnoreNotFound err)))
    | (c1, none) =>
      match newBuild v1 with
      | Except.error p => (c1, Flow.stop (Outcome.panicked p))
      | Except.ok b =>
        match c1.CreateBuild b with
        | (c2, some err) => (c2, Flow.stop (Outcome.returned (IgnoreNotFound err)))
        | (c2, none) => (c2, Flow.next)

/-- The loop `for _, v := range buildConfigs.Items`. -/
def buildConfigLoop (desiredVersion : String) : List BuildConfig → Client → Client × Flow
  | [], c => (c, Flow.next)
  | v :: rest, c =>
    match buildConfigBody desiredVersion v c with
    | (c1, Flow.next) => buildConfigLoop desiredVersion rest c1
    | (c1, Flow.stop o) => (c1, Flow.stop o)

/-- Lines 151-156 of `Reconcile`: decide whether the trigger is to be changed and compute
the changed trigger. -/
def rewriteTrigger (desiredVersion : String) (trig : DeploymentTriggerPolicy) :
    Step DeploymentTriggerPolicy :=
  if trig.Type_ = DeploymentTriggerOnImageChange then
    match trig.ImageChangeParams with
    | none => Step.panic PanicKind.nilPointer
    | some params =>
      match Split params.From.Name ':' with
      | repo :: tag :: _ =>
        if tag = desiredVersion then Step.skip
        else
          Step.go { trig with ImageChangeParams := some { params with
            From := { params.From with Name := Join [repo, desiredVersion] ":" } } }
      | _ => Step.panic PanicKind.indexOutOfRange
  else Step.skip

/-- The loop `for _, trig := range v.Spec.Triggers` (lines 150-162).  `done` are the
triggers already visited, as they now stand in `v`, and the second list the triggers still
to visit: the write through `trig.ImageChangeParams` changes the trigger inside `v`, and
every `Update` sends `v` with all changes made so far. -/
def triggerLoop (desiredVersion : String) (v : DeploymentConfig) :
    List DeploymentTriggerPolicy → List DeploymentTriggerPolicy → Client → Client × Flow
  | _, [], c => (c, Flow.next)
  | done, trig :: rest, c =>
    match rewriteTrigger desiredVersion trig with
    | Step.skip => triggerLoop desiredVersion v (done ++ [trig]) rest c
    | Step.panic p => (c, Flow.stop (Outcome.panicked p))
    | Step.go trig1 =>
      match c.UpdateDeploymentConfig
          { v with Spec := { Triggers := done ++ trig1 :: rest } } with
      | (c1, some err) => (c1, Flow.stop (Outcome.returned (IgnoreNotFound err)))
      | (c1, none) => triggerLoop desiredVersion v (done ++ [trig1]) rest c1

/-- The loop `for _, v := range deployConfigs.Items` (lines 149-164). -/
def deployConfigLoop (desiredVersion : String) :
    List DeploymentConfig → Client → Client × Flow
  | [], c => (c, Flow.next)
  | v :: rest, c =>
    match triggerLoop desiredVersion v [] v.Spec.Triggers c with
    | (c1, Flow.next) => deployConfigLoop desiredVersion rest c1
    | (c1, Flow.stop o) => (c1, Flow.stop o)

/-- Lines 67-70: the desired version read from the ConfigMap, the empty string when the
key is absent. -/
def desiredVersionOf (r : AppDeploymentReconciler) (config : ConfigMap) : String :=
  match mapLookup config.Data r.CfgMapKey with
  | some ver => ver
  | none => ""

/-- The method `AppDeploymentReconciler.Reconcile`. -/
def Reconcile (r : AppDeploymentReconciler) (req : Request) (c : Client) :
    Client × Outcome :=
  match c.Get req.Namespace req.Name with
  | (c1, Except.error err) => (c1, Outcome.returned (IgnoreNotFound err))
  | (c1, Except.ok config) =>
    if config.Name ≠ r.CfgMapName then (c1, Outcome.returned none)
    else
      let desiredVersion := desiredVersionOf r config
      match c1.ListBuildConfigs req.Namespace with
      | (c2, Except.error err) => (c2, Outcome.returned (IgnoreNotFound err))
      | (c2, Except.ok buildConfigs) =>
        match buildConfigLoop desiredVersion buildConfigs c2 with
        | (c3, Flow.stop o) => (c3, o)
        | (c3, Flow.next) =>
          match c3.ListDeploymentConfigs req.Namespace with
          | (c4, Except.error err) => (c4, Outcome.returned (IgnoreNotFound err))
          | (c4, Except.ok deployConfigs) =>
            match deployConfigLoop desiredVersion deployConfigs c4 with
            | (c5, Flow.stop o) => (c5, o)
            | (c5, Flow.next) => (c5, Outcome.returned none)

/-! ## Running a pass -/

/-- The oracle under which every store call succeeds. -/
def noFaults : Nat → Option StoreError := fun _ => none

/-- A fresh client on the store `s` with fault oracle `f`. -/
def Client.start (s : Store) (f : Nat → Option StoreError) : Client :=
  { store := s, log := [], faults := f }

/-- The store after one pass. -/
def storeAfter (r : AppDeploymentReconciler) (req : Request) (s : Store)
    (f : Nat → Option StoreError) : Store :=
  (Reconcile r req (Client.start s f)).1.store

/-- The store calls of one pass, in order. -/
def logOf (r : AppDeploymentReconciler) (req : Request) (s : Store)
    (f : Nat → Option StoreError) : List Event :=
  (Reconcile r req (Client.start s f)).1.log

/-- How one pass ends. -/
def outcomeOf (r : AppDeploymentReconciler) (req : Request) (s : Store)
    (f : Nat → Option StoreError) : Outcome :=
  (Reconcile r req (Client.start s f)).2

/-! ## Observations on objects, logs and stores -/

/-- The output image reference `v.Spec.Output.To.Name` (empty when `To` is nil). -/
def BuildConfig.outputName (v : BuildConfig) : String :=
  match v.Spec.CommonSpec.Output.To with
  | some target => target.Name
  | none => ""

/-- The git ref `v.Spec.Source.Git.Ref`, when `Git` is set. -/
def BuildConfig.gitRef (v : BuildConfig) : Option String :=
  v.Spec.CommonSpec.Source.Git.map (fun g => g.Ref)

/-- The image reference of a trigger, `trig.ImageChangeParams.From.Name` (empty when the
parameters are nil). -/
def DeploymentTriggerPolicy.imageName (t : DeploymentTriggerPolicy) : String :=
  match t.ImageChangeParams with
  | some params => params.From.Name
  | none => ""

/-- The element `parts[1]` of the split image reference, which lines 93 and 153 compare
with the desired version; `none` when the reference has no `:`. -/
def comparedTag (ref : String) : Option String := (Split ref ':')[1]?

/-- The element `parts[0]` of the split image reference, which lines 97 and 156 keep. -/
def keptRepository (ref : String) : String := (Split ref ':').headD ""

/-- The tag of an image reference in the words of the specification: the substring after
the last `:`; `none` when the reference has no `:`. -/
def tagAfterLastColon (ref : String) : Option String :=
  match Split ref ':' with
  | [] => none
  | [_] => none
  | parts => parts.getLast?

/-- The repository of an image reference in the words of the specification: everything
before the last `:`. -/
def repositoryBeforeLastColon (ref : String) : String :=
  Join (Split ref ':').dropLast ":"

/-- The number of `:` in an image reference. -/
def colonCount (ref : String) : Nat := ref.data.count ':'

/-- Whether the trigger is an image-change trigger whose tag, the substring after the last
`:` of its image reference, is not the desired version. -/
def DeploymentTriggerPolicy.hasStaleTag (desiredVersion : String)
    (t : DeploymentTriggerPolicy) : Bool :=
  decide (t.Type_ = DeploymentTriggerOnImageChange) &&
    decide (tagAfterLastColon t.imageName ≠ some desiredVersion)

/-- The key of a BuildConfig in the store: namespace and name. -/
def BuildConfig.key (v : BuildConfig) : String × String := (v.Namespace, v.Name)

/-- The key of a DeploymentConfig in the store: namespace and name. -/
def DeploymentConfig.key (v : DeploymentConfig) : String × String := (v.Namespace, v.Name)

/-- Whether the call writes to the store. -/
def Call.isWrite : Call → Bool
  | Call.UpdateBuildConfig _ => true
  | Call.CreateBuild _ => true
  | Call.UpdateDeploymentConfig _ => true
  | _ => false

/-- The event is an `Update` of the BuildConfig `ns/name`. -/
def Event.updatesBuildConfig (ns name : String) (e : Event) : Bool :=
  match e.call with
  | Call.UpdateBuildConfig v => decide (v.Namespace = ns ∧ v.Name = name)
  | _ => false

/-- The event is a `Create` of a Build in `ns` owned by the BuildConfig `name`. -/
def Event.createsBuildFor (ns name : String) (e : Event) : Bool :=
  match e.call with
  | Call.CreateBuild b =>
    decide (b.Namespace = ns) && b.OwnerReferences.any (fun o => decide (o.Name = name))
  | _ => false

/-- The event is an `Update` of the DeploymentConfig `ns/name`. -/
def Event.updatesDeploymentConfig (ns name : String) (e : Event) : Bool :=
  match e.call with
  | Call.UpdateDeploymentConfig v => decide (v.Namespace = ns ∧ v.Name = name)
  | _ => false

/-- The event is a call of the Build Synchronizer step: the list of BuildConfigs, an
`Update` of a BuildConfig or a `Create` of a Build. -/
def Call.inBuildStep : Call → Bool
  | Call.ListBuildConfigs _ => true
  | Call.UpdateBuildConfig _ => true
  | Call.CreateBuild _ => true
  | _ => false

/-- The desired version a pass on the store `s` works with: that of the ConfigMap the
request names, when it exists and has the configured name. -/
def desiredVersionIn (r : AppDeploymentReconciler) (req : Request) (s : Store) :
    Option String :=
  match s.configMaps.find? (fun m => m.Namespace = req.Namespace ∧ m.Name = req.Name) with
  | none => none
  | some config => if config.Name ≠ r.CfgMapName then none else some (desiredVersionOf r config)

/-- Whether the trigger is an image-change trigger whose compared tag is not the desired
version. -/
def DeploymentTriggerPolicy.isStale (desiredVersion : String) (t : DeploymentTriggerPolicy) :
    Bool :=
  decide (t.Type_ = DeploymentTriggerOnImageChange) &&
    decide (comparedTag t.imageName ≠ some desiredVersion)

/-- The BuildConfigs a pass lists. -/
def listedBuildConfigs (req : Request) (s : Store) : List BuildConfig :=
  s.buildConfigs.filter (fun x => x.Namespace = req.Namespace)

/-- The DeploymentConfigs a pass lists. -/
def listedDeploymentConfigs (req : Request) (s : Store) : List DeploymentConfig :=
  s.deploymentConfigs.filter (fun x => x.Namespace = req.Namespace)

/-! ## The effect of the loops when every store call succeeds -/

/-- The store calls of one iteration over a BuildConfig that runs to its end. -/
def bcEvents (desiredVersion : String) (v : BuildConfig) : List Event :=
  match rewriteBuildConfig desiredVersion v with
  | Step.go v1 =>
    match newBuild v1 with
    | Except.ok b => [⟨Call.UpdateBuildConfig v1, none⟩, ⟨Call.CreateBuild b, none⟩]
    | Except.error _ => []
  | _ => []

/-- The store after one iteration over a BuildConfig that runs to its end. -/
def bcApply (desiredVersion : String) (s : Store) (v : BuildConfig) : Store :=
  match rewriteBuildConfig desiredVersion v with
  | Step.go v1 =>
    match newBuild v1 with
    | Except.ok b => (s.putBuildConfig v1).addBuild b
    | Except.error _ => s
  | _ => s

/-- The iteration over the BuildConfig does not panic. -/
def bcOK (desiredVersion : String) (v : BuildConfig) : Prop :=
  rewriteBuildConfig desiredVersion v = Step.skip ∨
    ∃ v1 b, rewriteBuildConfig desiredVersion v = Step.go v1 ∧ newBuild v1 = Except.ok b

/-- The trigger as the loop leaves it. -/
def fixedTrigger (desiredVersion : String) (t : DeploymentTriggerPolicy) :
    DeploymentTriggerPolicy :=
  match rewriteTrigger desiredVersion t with
  | Step.go t1 => t1
  | _ => t

/-- The store calls of the trigger loop when it runs to its end. -/
def trigEvents (desiredVersion : String) (v : DeploymentConfig) :
    List DeploymentTriggerPolicy → List DeploymentTriggerPolicy → List Event
  | _, [] => []
  | done, trig :: rest =>
    match rewriteTrigger desiredVersion trig with
    | Step.go trig1 =>
      ⟨Call.UpdateDeploymentConfig { v with Spec := { Triggers := done ++ trig1 :: rest } },
        none⟩ :: trigEvents desiredVersion v (done ++ [trig1]) rest
    | _ => trigEvents desiredVersion v (done ++ [trig]) rest

/-- The DeploymentConfig as the trigger loop leaves it. -/
def fixedDeploymentConfig (desiredVersion : String) (v : DeploymentConfig) :
    DeploymentConfig :=
  { v with Spec := { Triggers := v.Spec.Triggers.map (fixedTrigger desiredVersion) } }

/-- Whether the store-free part of an iteration asks for a write. -/
def Step.isGo {α : Type} : Step α → Bool
  | Step.go _ => true
  | _ => false

/-- Some trigger of the list is rewritten by the loop. -/
def anyRewritten (desiredVersion : String) (ts : List DeploymentTriggerPolicy) : Bool :=
  ts.any (fun t => (rewriteTrigger desiredVersion t).isGo)

/-- The store calls of one iteration over a DeploymentConfig that runs to its end. -/
def dcEvents (desiredVersion : String) (v : DeploymentConfig) : List Event :=
  trigEvents desiredVersion v [] v.Spec.Triggers

/-- The store after one iteration over a DeploymentConfig that runs to its end. -/
def dcApply (desiredVersion : String) (s : Store) (v : DeploymentConfig) : Store :=
  if anyRewritten desiredVersion v.Spec.Triggers then
    s.putDeploymentConfig (fixedDeploymentConfig desiredVersion v)
  else s

/-- The iteration over the DeploymentConfig does not panic. -/
def dcOK (desiredVersion : String) (v : DeploymentConfig) : Prop :=
  ∀ t ∈ v.Spec.Triggers, ∀ p, rewriteTrigger desiredVersion t ≠ Step.panic p

/-! ## Passes in which store calls may fail -/

/-- The event comes from the iteration over the BuildConfig `v`: it is the `Update` of the
rewritten `v` or the `Create` of the Build made for it. -/
def FromBuildConfig (desiredVersion : String) (v : BuildConfig) (e : Event) : Prop :=
  ∃ v1, rewriteBuildConfig desiredVersion v = Step.go v1 ∧
    (e.call = Call.UpdateBuildConfig v1 ∨
      ∃ b, newBuild v1 = Except.ok b ∧ e.call = Call.CreateBuild b)

/-- The events of a loop that ended with `fl`: either every call succeeded, or the last
call is the only one that failed and the loop left `Reconcile` with that error, a
not-found error turned into nil. -/
def EndedWith (evs : List Event) (fl : Flow) : Prop :=
  (∀ e ∈ evs, e.err = none) ∨
    ∃ pre call err, evs = pre ++ [⟨call, some err⟩] ∧ (∀ e ∈ pre, e.err = none) ∧
      fl = Flow.stop (Outcome.returned (IgnoreNotFound err))

/-! ## Concrete objects -/

/-- The oracle that fails the call number `k` with the error `e`. -/
def failAt (k : Nat) (e : StoreError) : Nat → Option StoreError :=
  fun n => if n = k then some e else none

/-- A reconciler watching the key `version` of the ConfigMap `app-config`. -/
def exReconciler : AppDeploymentReconciler :=
  { CfgMapName := "app-config", CfgMapKey := "version" }

/-- The request for the ConfigMap `prod/app-config`. -/
def exRequest : Request := { Namespace := "prod", Name := "app-config" }

/-- The ConfigMap `prod/app-config` with the given data. -/
def exConfigMap (data : GoMap) : ConfigMap :=
  { Name := "app-config", Namespace := "prod", Data := data }

/-- A BuildConfig in `prod`. -/
def exBuildConfig (name source output ref : String) (counter : Int) (labels : Option GoMap) :
    BuildConfig :=
  { APIVersion := "build.openshift.io/v1", Kind := "BuildConfig", Name := name,
    Namespace := "prod", UID := "uid-" ++ name, Labels := labels,
    Spec := { CommonSpec :=
      { Source := { Type_ := source,
                    Git := some { URI := "https://git.example/" ++ name, Ref := ref } },
        Output := { To := some { Kind := "DockerImage", Name := output } } } },
    Status := { LastVersion := counter } }

/-- An image-change trigger on the given image reference. -/
def exTrigger (image : String) : DeploymentTriggerPolicy :=
  { Type_ := "ImageChange",
    ImageChangeParams := some { Automatic := true,
                                From := { Kind := "ImageStreamTag", Name := image } } }

/-- A DeploymentConfig in `prod` with image-change triggers on the given references. -/
def exDeploy (name : String) (images : List String) : DeploymentConfig :=
  { Name := name, Namespace := "prod", Spec := { Triggers := images.map exTrigger } }

/-- The BuildConfig `api` of the example: output `registry/api:v2`, ref `v2`, counter 5. -/
def exApi : BuildConfig :=
  exBuildConfig "api" "Git" "registry/api:v2" "v2" 5 (some [("app", "api")])

/-- A store with the given desired version, BuildConfigs and DeploymentConfigs. -/
def exStoreOf (data : GoMap) (bcs : List BuildConfig) (dcs : List DeploymentConfig) : Store :=
  { configMaps := [exConfigMap data], buildConfigs := bcs, builds := [],
    deploymentConfigs := dcs }

/-- The example of the specification: desired version `v3`, BuildConfig `api` at `v2`,
DeploymentConfig `api-deploy` with a trigger at `v2`. -/
def exStore : Store :=
  exStoreOf [("version", "v3")] [exApi] [exDeploy "api-deploy" ["registry/api:v2"]]

/-- The example with the desired version `v3:rc`, which has a `:`. -/
def colonStore : Store :=
  exStoreOf [("version", "v3:rc")] [exApi] [exDeploy "api-deploy" ["registry/api:v2"]]

/-- The BuildConfig `api` as the pass rewrites it for the desired version `v3`. -/
def exApiV3 : BuildConfig :=
  exBuildConfig "api" "Git" "registry/api:v3" "v3" 6 (some [("app", "api")])

/-- The Build `api-6` that the pass makes for `exApiV3`. -/
def exBuildApi6 : Build :=
  { Name := "api-6", Namespace := "prod",
    Labels := some [("app", "api"), ("buildconfig", "api"),
      ("openshift.io/build-config.name", "api"),
      ("openshift.io/build.start-policy", "SerialLatestOnly")],
    Annotations := some [("openshift.io/build-config.name", "api"),
      ("openshift.io/build.number", "6"), ("openshift.io/build.pod-name", "api-6-build")],
    OwnerReferences := [{ APIVersion := "build.openshift.io/v1", Kind := "BuildConfig",
                          Name := "api", UID := "uid-api", Controller := some true }],
    Spec := { CommonSpec := exApiV3.Spec.CommonSpec,
              TriggeredBy := [{ Message := "AppDeployer" }] } }

/-- The example store in which the Build `api-6` exists already. -/
def raceStore : Store := { exStore with builds := [exBuildApi6] }

/-- A BuildConfig with a Docker source whose output reference has no `:`. -/
def exBase : BuildConfig :=
  exBuildConfig "base" "Docker" "registry/base" "main" 2 none

/-- The example store with the Docker BuildConfig `base` added. -/
def mixedStore : Store :=
  exStoreOf [("version", "v3")] [exBase, exApi] [exDeploy "api-deploy" ["registry/api:v2"]]

/-- A DeploymentConfig with three image-change triggers, two of them not at `v3`. -/
def exWebDeploy : DeploymentConfig :=
  exDeploy "web-deploy" ["registry/web:v2", "registry/web:v3", "registry/worker:v1"]

/-- A store with the desired version `v3` and the DeploymentConfig `web-deploy`. -/
def staleStore : Store := exStoreOf [("version", "v3")] [exApi] [exWebDeploy]

/-- A Git BuildConfig whose output reference `registry/bad` has no `:`. -/
def exBad : BuildConfig :=
  exBuildConfig "bad" "Git" "registry/bad" "v2" 1 (some [("app", "bad")])

/-- A well-formed drifted Git BuildConfig. -/
def exWeb : BuildConfig :=
  exBuildConfig "web" "Git" "registry/web:v2" "v2" 3 (some [("app", "web")])

/-- A namespace with the malformed BuildConfig `bad` and the drifted `web`. -/
def malformedStore : Store :=
  exStoreOf [("version", "v3")] [exBad, exWeb] [exDeploy "api-deploy" ["registry/api:v2"]]

/-- A namespace with a DeploymentConfig whose trigger reference has no `:` and a
well-formed drifted DeploymentConfig. -/
def malformedTriggerStore : Store :=
  exStoreOf [("version", "v3")] []
    [exDeploy "bad-deploy" ["registry/bad"], exDeploy "api-deploy" ["registry/api:v2"]]

/-- A Git BuildConfig that pushes to a registry with a port, already at the tag `v3`. -/
def exPortV3 : BuildConfig :=
  exBuildConfig "api" "Git" "host:5000/repo:v3" "v3" 5 (some [("app", "api")])

/-- A store with the desired version `v3` and the BuildConfig `exPortV3`. -/
def portConvergedStore : Store := exStoreOf [("version", "v3")] [exPortV3] []

/-- A Git BuildConfig that pushes to a registry with a port, at the tag `v2`. -/
def exPortV2 : BuildConfig :=
  exBuildConfig "api" "Git" "host:5000/repo:v2" "v2" 5 (some [("app", "api")])

/-- A store with the desired version `v3`, the BuildConfig `exPortV2` and a
DeploymentConfig with a trigger on `host:5000/repo:v2`. -/
def portStore : Store :=
  exStoreOf [("version", "v3")] [exPortV2] [exDeploy "api-deploy" ["host:5000/repo:v2"]]

/-- The BuildConfig `api` of the example without labels: its `Labels` map is nil. -/
def exApiNoLabels : BuildConfig :=
  exBuildConfig "api" "Git" "registry/api:v2" "v2" 5 none

/-- The example store with the BuildConfig `api` without labels. -/
def noLabelStore : Store :=
  exStoreOf [("version", "v3")] [exApiNoLabels] [exDeploy "api-deploy" ["registry/api:v2"]]


/-! ## Facts about `Split` and `Join` -/

theorem splitChars_cons (sep c : Char) (cs : List Char) :
    splitChars sep (c :: cs) =
      if c = sep then [] :: splitChars sep cs
      else
        match splitChars sep cs with
        | [] => [[c]]
        | p :: ps => (c :: p) :: ps := by
  rw [splitChars]

theorem splitChars_ne_nil (sep : Char) (l : List Char) : splitChars sep l ≠ [] := by
  cases l with
  | nil => simp [splitChars]
  | cons c cs =>
    rw [splitChars_cons]
    split
    · simp
    · split <;> simp

theorem splitChars_head_not_mem (sep : Char) :
    ∀ (l p : List Char) (ps : List (List Char)), splitChars sep l = p :: ps → sep ∉ p := by
  intro l
  induction l with
  | nil =>
    intro p ps h
    rw [splitChars] at h
    cases h
    simp
  | cons c cs ih =>
    intro p ps h
    rw [splitChars_cons] at h
    split at h
    · cases h
      simp
    · rename_i hc
      split at h
      · rename_i hnil
        exact absurd hnil (splitChars_ne_nil sep cs)
      · rename_i q qs hq
        cases h
        simp only [List.mem_cons, not_or]
        exact ⟨fun e => hc e.symm, ih _ _ hq⟩

theorem splitChars_of_not_mem (sep : Char) :
    ∀ l : List Char, sep ∉ l → splitChars sep l = [l] := by
  intro l
  induction l with
  | nil => intro _; simp [splitChars]
  | cons c cs ih =>
    intro h
    simp only [List.mem_cons, not_or] at h
    rw [splitChars_cons, if_neg (fun e => h.1 e.symm), ih h.2]

theorem splitChars_append_sep (sep : Char) (b : List Char) :
    ∀ a : List Char, sep ∉ a → splitChars sep (a ++ sep :: b) = a :: splitChars sep b := by
  intro a
  induction a with
  | nil => intro _; simp [splitChars_cons]
  | cons c cs ih =>
    intro h
    simp only [List.mem_cons, not_or] at h
    rw [List.cons_append, splitChars_cons, if_neg (fun e => h.1 e.symm), ih h.2]

/-- Splitting `repo:V` gives back `[repo, V]` when `repo` is a first piece of a split and
`V` has no separator. -/
theorem Split_Join_of_head (name repo tag V : String) (rest : List String)
    (h : Split name ':' = repo :: tag :: rest) (hV : ':' ∉ V.data) :
    Split (Join [repo, V] ":") ':' = [repo, V] := by
  unfold Split at h
  cases hs : splitChars ':' name.data with
  | nil => exact absurd hs (splitChars_ne_nil _ _)
  | cons p ps =>
    rw [hs] at h
    simp only [List.map_cons, List.cons.injEq] at h
    have hp : ':' ∉ p := splitChars_head_not_mem ':' _ p ps hs
    have hrepo : repo.data = p := by rw [← h.1]
    have hdata : (Join [repo, V] ":").data = p ++ ':' :: V.data := by
      simp [Join, hrepo]
    unfold Split
    rw [hdata, splitChars_append_sep ':' _ p hp, splitChars_of_not_mem ':' _ hV]
    simp [← h.1]

/-! ## The client when no call fails -/

theorem UpdateBuildConfig_ok (c : Client) (v : BuildConfig) (hf : ∀ n, c.faults n = none) :
    c.UpdateBuildConfig v =
      ({ store := c.store.putBuildConfig v,
         log := c.log ++ [⟨Call.UpdateBuildConfig v, none⟩],
         faults := c.faults }, none) := by
  simp [Client.UpdateBuildConfig, hf]

theorem CreateBuild_ok (c : Client) (b : Build) (hf : ∀ n, c.faults n = none) :
    c.CreateBuild b =
      ({ store := c.store.addBuild b,
         log := c.log ++ [⟨Call.CreateBuild b, none⟩],
         faults := c.faults }, none) := by
  simp [Client.CreateBuild, hf]

theorem UpdateDeploymentConfig_ok (c : Client) (v : DeploymentConfig)
    (hf : ∀ n, c.faults n = none) :
    c.UpdateDeploymentConfig v =
      ({ store := c.store.putDeploymentConfig v,
         log := c.log ++ [⟨Call.UpdateDeploymentConfig v, none⟩],
         faults := c.faults }, none) := by
  simp [Client.UpdateDeploymentConfig, hf]

/-! ## The BuildConfig loop when no call fails -/

theorem buildConfigBody_next (V : String) (v : BuildConfig) (c c1 : Client)
    (hf : ∀ n, c.faults n = none) (h : buildConfigBody V v c = (c1, Flow.next)) :
    c1 = { store := bcApply V c.store v, log := c.log ++ bcEvents V v, faults := c.faults } ∧
      bcOK V v := by
  unfold buildConfigBody at h
  cases hr : rewriteBuildConfig V v with
  | skip =>
    rw [hr] at h
    simp only [Prod.mk.injEq, and_true] at h
    subst h
    simp [bcApply, bcEvents, bcOK, hr]
  | panic p =>
    rw [hr] at h
    simp at h
  | go v1 =>
    rw [hr] at h
    simp only [UpdateBuildConfig_ok c v1 hf] at h
    cases hb : newBuild v1 with
    | error p =>
      rw [hb] at h
      simp at h
    | ok b =>
      rw [hb] at h
      simp only at h
      rw [CreateBuild_ok _ b (by simpa using hf)] at h
      simp only [Prod.mk.injEq, and_true] at h
      subst h
      simp [bcApply, bcEvents, bcOK, hr, hb]

theorem buildConfigLoop_next (V : String) :
    ∀ (items : List BuildConfig) (c c1 : Client), (∀ n, c.faults n = none) →
      buildConfigLoop V items c = (c1, Flow.next) →
      c1 = { store := items.foldl (bcApply V) c.store,
             log := c.log ++ items.flatMap (bcEvents V),
             faults := c.faults } ∧ ∀ v ∈ items, bcOK V v := by
  intro items
  induction items with
  | nil =>
    intro c c1 _ h
    simp only [buildConfigLoop, Prod.mk.injEq, and_true] at h
    subst h
    simp
  | cons v rest ih =>
    intro c c1 hf h
    rw [buildConfigLoop] at h
    cases hb : buildConfigBody V v c with
    | mk c2 fl =>
      rw [hb] at h
      cases fl with
      | stop o => simp at h
      | next =>
        simp only at h
        obtain ⟨hc2, hok⟩ := buildConfigBody_next V v c c2 hf hb
        have hf2 : ∀ n, c2.faults n = none := by rw [hc2]; exact hf
        obtain ⟨hc1, hrest⟩ := ih c2 c1 hf2 h
        refine ⟨?_, ?_⟩
        · rw [hc1, hc2]
          simp [List.append_assoc]
        · intro x hx
          rcases List.mem_cons.mp hx with rfl | hx
          · exact hok
          · exact hrest x hx

/-! ## The trigger loop when no call fails -/

theorem putDeploymentConfig_twice (s : Store) (a b : DeploymentConfig)
    (hns : a.Namespace = b.Namespace) (hname : a.Name = b.Name) :
    (s.putDeploymentConfig a).putDeploymentConfig b = s.putDeploymentConfig b := by
  simp only [Store.putDeploymentConfig, List.map_map, Store.mk.injEq, true_and]
  apply List.map_congr_left
  intro x _
  simp only [Function.comp]
  by_cases hx : x.Namespace = a.Namespace ∧ x.Name = a.Name
  · have hx2 : x.Namespace = b.Namespace ∧ x.Name = b.Name := ⟨hx.1.trans hns, hx.2.trans hname⟩
    simp [hx, hx2, hns, hname]
  · simp [hx]

theorem map_fixedTrigger_of_not_any (V : String) (ts : List DeploymentTriggerPolicy)
    (h : anyRewritten V ts = false) : ts.map (fixedTrigger V) = ts := by
  induction ts with
  | nil => rfl
  | cons t rest ih =>
    simp only [anyRewritten, List.any_cons, Bool.or_eq_false_iff] at h
    have hrest : anyRewritten V rest = false := h.2
    rw [List.map_cons, ih hrest]
    have ht : fixedTrigger V t = t := by
      unfold fixedTrigger
      cases hr : rewriteTrigger V t with
      | go t1 => rw [hr] at h; simp [Step.isGo] at h
      | skip => rfl
      | panic p => rfl
    rw [ht]

theorem triggerLoop_next (V : String) (v : DeploymentConfig) :
    ∀ (todo done : List DeploymentTriggerPolicy) (c c1 : Client), (∀ n, c.faults n = none) →
      triggerLoop V v done todo c = (c1, Flow.next) →
      c1 = { store :=
               if anyRewritten V todo then
                 c.store.putDeploymentConfig
                   { v with Spec := { Triggers := done ++ todo.map (fixedTrigger V) } }
               else c.store,
             log := c.log ++ trigEvents V v done todo,
             faults := c.faults } ∧
        ∀ t ∈ todo, ∀ p, rewriteTrigger V t ≠ Step.panic p := by
  intro todo
  induction todo with
  | nil =>
    intro done c c1 _ h
    simp only [triggerLoop, Prod.mk.injEq, and_true] at h
    subst h
    simp [anyRewritten, trigEvents]
  | cons trig rest ih =>
    intro done c c1 hf h
    rw [triggerLoop] at h
    cases hr : rewriteTrigger V trig with
    | panic p =>
      rw [hr] at h
      simp at h
    | skip =>
      rw [hr] at h
      simp only at h
      obtain ⟨hc1, hrest⟩ := ih (done ++ [trig]) c c1 hf h
      refine ⟨?_, ?_⟩
      · rw [hc1]
        simp [anyRewritten, trigEvents, hr, Step.isGo, fixedTrigger]
      · intro t ht p
        rcases List.mem_cons.mp ht with rfl | ht
        · rw [hr]; simp
        · exact hrest t ht p
    | go trig1 =>
      rw [hr] at h
      simp only [UpdateDeploymentConfig_ok c _ hf] at h
      obtain ⟨hc1, hrest⟩ := ih (done ++ [trig1]) _ c1 (by simpa using hf) h
      refine ⟨?_, ?_⟩
      · rw [hc1]
        have hfix : fixedTrigger V trig = trig1 := by simp [fixedTrigger, hr]
        by_cases hany : anyRewritten V rest = true
        · have hany2 : anyRewritten V (trig :: rest) = true := by
            simp [anyRewritten, hr, Step.isGo]
          simp only [hany, hany2, if_true]
          rw [putDeploymentConfig_twice]
          · simp [trigEvents, hr, hfix, List.append_assoc]
          · rfl
          · rfl
        · have hany2 : anyRewritten V (trig :: rest) = true := by
            simp [anyRewritten, hr, Step.isGo]
          have hany0 : anyRewritten V rest = false := by simpa using hany
          simp only [hany0, hany2, if_true]
          simp [trigEvents, hr, hfix, List.append_assoc, map_fixedTrigger_of_not_any V rest hany0]
      · intro t ht p
        rcases List.mem_cons.mp ht with rfl | ht
        · rw [hr]; simp
        · exact hrest t ht p

theorem deployConfigLoop_next (V : String) :
    ∀ (items : List DeploymentConfig) (c c1 : Client), (∀ n, c.faults n = none) →
      deployConfigLoop V items c = (c1, Flow.next) →
      c1 = { store := items.foldl (dcApply V) c.store,
             log := c.log ++ items.flatMap (dcEvents V),
             faults := c.faults } ∧ ∀ v ∈ items, dcOK V v := by
  intro items
  induction items with
  | nil =>
    intro c c1 _ h
    simp only [deployConfigLoop, Prod.mk.injEq, and_true] at h
    subst h
    simp
  | cons v rest ih =>
    intro c c1 hf h
    rw [deployConfigLoop] at h
    cases hb : triggerLoop V v [] v.Spec.Triggers c with
    | mk c2 fl =>
      rw [hb] at h
      cases fl with
      | stop o => simp at h
      | next =>
        simp only at h
        obtain ⟨hc2, hok⟩ := triggerLoop_next V v _ _ c c2 hf hb
        have hf2 : ∀ n, c2.faults n = none := by rw [hc2]; exact hf
        obtain ⟨hc1, hrest⟩ := ih c2 c1 hf2 h
        refine ⟨?_, ?_⟩
        · rw [hc1, hc2]
          simp [List.append_assoc, dcApply, dcEvents, fixedDeploymentConfig]
        · intro x hx
          rcases List.mem_cons.mp hx with rfl | hx
          · exact hok
          · exact hrest x hx


/-! ## Without a failing call no loop returns -/

theorem buildConfigBody_not_returned (V : String) (v : BuildConfig) (c c1 : Client)
    (e : Option StoreError) (hf : ∀ n, c.faults n = none) :
    buildConfigBody V v c ≠ (c1, Flow.stop (Outcome.returned e)) := by
  intro h
  unfold buildConfigBody at h
  cases hr : rewriteBuildConfig V v with
  | skip => rw [hr] at h; simp at h
  | panic p => rw [hr] at h; simp at h
  | go v1 =>
    rw [hr] at h
    simp only [UpdateBuildConfig_ok c v1 hf] at h
    cases hb : newBuild v1 with
    | error p => rw [hb] at h; simp at h
    | ok b =>
      rw [hb] at h
      simp only at h
      rw [CreateBuild_ok _ b (by simpa using hf)] at h
      simp at h

theorem buildConfigLoop_not_returned (V : String) :
    ∀ (items : List BuildConfig) (c c1 : Client) (e : Option StoreError),
      (∀ n, c.faults n = none) →
      buildConfigLoop V items c ≠ (c1, Flow.stop (Outcome.returned e)) := by
  intro items
  induction items with
  | nil => intro c c1 e _ h; simp [buildConfigLoop] at h
  | cons v rest ih =>
    intro c c1 e hf h
    rw [buildConfigLoop] at h
    cases hb : buildConfigBody V v c with
    | mk c2 fl =>
      rw [hb] at h
      cases fl with
      | stop o =>
        simp only [Prod.mk.injEq, Flow.stop.injEq] at h
        rw [h.1, h.2] at hb
        exact buildConfigBody_not_returned V v c c1 e hf hb
      | next =>
        simp only at h
        obtain ⟨hc2, _⟩ := buildConfigBody_next V v c c2 hf hb
        exact ih c2 c1 e (by rw [hc2]; exact hf) h

theorem triggerLoop_not_returned (V : String) (v : DeploymentConfig) :
    ∀ (todo done : List DeploymentTriggerPolicy) (c c1 : Client) (e : Option StoreError),
      (∀ n, c.faults n = none) →
      triggerLoop V v done todo c ≠ (c1, Flow.stop (Outcome.returned e)) := by
  intro todo
  induction todo with
  | nil => intro done c c1 e _ h; simp [triggerLoop] at h
  | cons trig rest ih =>
    intro done c c1 e hf h
    rw [triggerLoop] at h
    cases hr : rewriteTrigger V trig with
    | panic p => rw [hr] at h; simp at h
    | skip =>
      rw [hr] at h
      exact ih _ c c1 e hf h
    | go trig1 =>
      rw [hr] at h
      simp only [UpdateDeploymentConfig_ok c _ hf] at h
      exact ih _ _ c1 e (by simpa using hf) h

theorem deployConfigLoop_not_returned (V : String) :
    ∀ (items : List DeploymentConfig) (c c1 : Client) (e : Option StoreError),
      (∀ n, c.faults n = none) →
      deployConfigLoop V items c ≠ (c1, Flow.stop (Outcome.returned e)) := by
  intro items
  induction items with
  | nil => intro c c1 e _ h; simp [deployConfigLoop] at h
  | cons v rest ih =>
    intro c c1 e hf h
    rw [deployConfigLoop] at h
    cases hb : triggerLoop V v [] v.Spec.Triggers c with
    | mk c2 fl =>
      rw [hb] at h
      cases fl with
      | stop o =>
        simp only [Prod.mk.injEq, Flow.stop.injEq] at h
        rw [h.1, h.2] at hb
        exact triggerLoop_not_returned V v _ _ c c1 e hf hb
      | next =>
        simp only at h
        obtain ⟨hc2, _⟩ := triggerLoop_next V v _ _ c c2 hf hb
        exact ih c2 c1 e (by rw [hc2]; exact hf) h

/-! ## A whole pass when no call fails -/

theorem bcApply_deploymentConfigs (V : String) (s : Store) (v : BuildConfig) :
    (bcApply V s v).deploymentConfigs = s.deploymentConfigs := by
  unfold bcApply
  split
  · split <;> rfl
  · rfl

theorem bcApply_configMaps (V : String) (s : Store) (v : BuildConfig) :
    (bcApply V s v).configMaps = s.configMaps := by
  unfold bcApply
  split
  · split <;> rfl
  · rfl

theorem dcApply_buildConfigs (V : String) (s : Store) (v : DeploymentConfig) :
    (dcApply V s v).buildConfigs = s.buildConfigs := by
  unfold dcApply
  split <;> rfl

theorem dcApply_configMaps (V : String) (s : Store) (v : DeploymentConfig) :
    (dcApply V s v).configMaps = s.configMaps := by
  unfold dcApply
  split <;> rfl

theorem foldl_bcApply_deploymentConfigs (V : String) :
    ∀ (items : List BuildConfig) (s : Store),
      (items.foldl (bcApply V) s).deploymentConfigs = s.deploymentConfigs := by
  intro items
  induction items with
  | nil => intro s; rfl
  | cons v rest ih => intro s; rw [List.foldl_cons, ih, bcApply_deploymentConfigs]

theorem foldl_bcApply_configMaps (V : String) :
    ∀ (items : List BuildConfig) (s : Store),
      (items.foldl (bcApply V) s).configMaps = s.configMaps := by
  intro items
  induction items with
  | nil => intro s; rfl
  | cons v rest ih => intro s; rw [List.foldl_cons, ih, bcApply_configMaps]

theorem foldl_dcApply_buildConfigs (V : String) :
    ∀ (items : List DeploymentConfig) (s : Store),
      (items.foldl (dcApply V) s).buildConfigs = s.buildConfigs := by
  intro items
  induction items with
  | nil => intro s; rfl
  | cons v rest ih => intro s; rw [List.foldl_cons, ih, dcApply_buildConfigs]

theorem foldl_dcApply_configMaps (V : String) :
    ∀ (items : List DeploymentConfig) (s : Store),
      (items.foldl (dcApply V) s).configMaps = s.configMaps := by
  intro items
  induction items with
  | nil => intro s; rfl
  | cons v rest ih => intro s; rw [List.foldl_cons, ih, dcApply_configMaps]

/-- The shape of a pass that runs to its end with every store call succeeding. -/
theorem Reconcile_complete (r : AppDeploymentReconciler) (req : Request) (s : Store)
    (V : String) (hV : desiredVersionIn r req s = some V)
    (hret : outcomeOf r req s noFaults = Outcome.returned none) :
    logOf r req s noFaults =
        [⟨Call.Get req.Namespace req.Name, none⟩, ⟨Call.ListBuildConfigs req.Namespace, none⟩]
          ++ (listedBuildConfigs req s).flatMap (bcEvents V)
          ++ [⟨Call.ListDeploymentConfigs req.Namespace, none⟩]
          ++ (listedDeploymentConfigs req s).flatMap (dcEvents V) ∧
      storeAfter r req s noFaults =
        (listedDeploymentConfigs req s).foldl (dcApply V)
          ((listedBuildConfigs req s).foldl (bcApply V) s) ∧
      (∀ v ∈ listedBuildConfigs req s, bcOK V v) ∧
      (∀ v ∈ listedDeploymentConfigs req s, dcOK V v) := by
  unfold desiredVersionIn at hV
  cases hfind : s.configMaps.find? (fun m => m.Namespace = req.Namespace ∧ m.Name = req.Name) with
  | none => rw [hfind] at hV; simp at hV
  | some config =>
    rw [hfind] at hV
    simp only at hV
    by_cases hname : config.Name ≠ r.CfgMapName
    · simp [hname] at hV
    · rw [if_neg hname] at hV
      simp only [Option.some.injEq] at hV
      unfold outcomeOf at hret
      unfold logOf storeAfter
      unfold Reconcile at hret ⊢
      simp only [Client.Get, Client.start, noFaults, hfind, Client.record, if_neg hname, hV,
        Client.ListBuildConfigs, List.nil_append, List.length_cons, List.length_nil,
        Client.ListDeploymentConfigs] at hret ⊢
      cases hb : buildConfigLoop V (List.filter (fun x => decide (x.Namespace = req.Namespace))
          s.buildConfigs)
          { store := s,
            log := [⟨Call.Get req.Namespace req.Name, none⟩] ++
              [⟨Call.ListBuildConfigs req.Namespace, none⟩],
            faults := noFaults } with
      | mk c3 fl =>
        rw [hb] at hret
        cases fl with
        | stop o =>
          change o = Outcome.returned none at hret
          rw [hret] at hb
          exact absurd hb (buildConfigLoop_not_returned V _ _ _ _ (fun _ => rfl))
        | next =>
          obtain ⟨hc3, hbok⟩ := buildConfigLoop_next V _ _ c3 (fun _ => rfl) hb
          have hf3 : ∀ n, c3.faults n = none := by rw [hc3]; exact fun _ => rfl
          simp only [hf3] at hret ⊢
          cases hd : deployConfigLoop V
              (List.filter (fun x => decide (x.Namespace = req.Namespace))
                c3.store.deploymentConfigs)
              { store := c3.store,
                log := c3.log ++ [⟨Call.ListDeploymentConfigs req.Namespace, none⟩],
                faults := c3.faults } with
          | mk c5 fl2 =>
            rw [hd] at hret
            cases fl2 with
            | stop o =>
              change o = Outcome.returned none at hret
              rw [hret] at hd
              exact absurd hd (deployConfigLoop_not_returned V _ _ _ _ (by simpa using hf3))
            | next =>
              obtain ⟨hc5, hdok⟩ := deployConfigLoop_next V _ _ c5 (by simpa using hf3) hd
              have hdcs : c3.store.deploymentConfigs = s.deploymentConfigs := by
                rw [hc3]
                exact foldl_bcApply_deploymentConfigs V _ s
              rw [hdcs] at hc5 hdok
              refine ⟨?_, ?_, hbok, hdok⟩
              · rw [hc5, hc3]
                simp [listedBuildConfigs, listedDeploymentConfigs]
              · rw [hc5, hc3]
                rfl

/-! ## What the store-free parts of an iteration compute -/

/-- The changed BuildConfig of lines 97-99. -/
theorem rewriteBuildConfig_go_inv (V : String) (v v1 : BuildConfig)
    (h : rewriteBuildConfig V v = Step.go v1) :
    ∃ target repo tag rest git,
      v.Spec.CommonSpec.Output.To = some target ∧
      v.Spec.CommonSpec.Source.Type_ = "Git" ∧
      Split target.Name ':' = repo :: tag :: rest ∧
      tag ≠ V ∧
      v.Spec.CommonSpec.Source.Git = some git ∧
      v1 = { v with
              Spec := { CommonSpec :=
                { Source := { v.Spec.CommonSpec.Source with
                              Git := some { git with Ref := V } },
                  Output := { To := some { target with Name := Join [repo, V] ":" } } } },
              Status := { LastVersion := wrapInt64 (v.Status.LastVersion + 1) } } := by
  unfold rewriteBuildConfig at h
  cases hto : v.Spec.CommonSpec.Output.To with
  | none => rw [hto] at h; simp at h
  | some target =>
    rw [hto] at h
    simp only at h
    by_cases hgit : v.Spec.CommonSpec.Source.Type_ ≠ "Git"
    · rw [if_pos hgit] at h; simp at h
    · rw [if_neg hgit] at h
      cases hsp : Split target.Name ':' with
      | nil => rw [hsp] at h; simp at h
      | cons repo tl =>
        cases tl with
        | nil => rw [hsp] at h; simp at h
        | cons tag rest =>
          rw [hsp] at h
          simp only at h
          by_cases htag : tag = V
          · rw [if_pos htag] at h; simp at h
          · rw [if_neg htag] at h
            cases hg : v.Spec.CommonSpec.Source.Git with
            | none => rw [hg] at h; simp at h
            | some git =>
              rw [hg] at h
              simp only [Step.go.injEq] at h
              exact ⟨target, repo, tag, rest, git, rfl, by simpa using hgit, hsp, htag, rfl,
                h.symm⟩

theorem rewriteBuildConfig_go_key (V : String) (v v1 : BuildConfig)
    (h : rewriteBuildConfig V v = Step.go v1) :
    v1.Namespace = v.Namespace ∧ v1.Name = v.Name := by
  obtain ⟨_, _, _, _, _, _, _, _, _, _, rfl⟩ := rewriteBuildConfig_go_inv V v v1 h
  exact ⟨rfl, rfl⟩

theorem rewriteBuildConfig_go_git (V : String) (v v1 : BuildConfig)
    (h : rewriteBuildConfig V v = Step.go v1) :
    v.Spec.CommonSpec.Source.Type_ = "Git" := by
  obtain ⟨_, _, _, _, _, _, hgit, _, _, _, _⟩ := rewriteBuildConfig_go_inv V v v1 h
  exact hgit

/-- A rewritten BuildConfig is left alone by the next pass, when the desired version has
no `:`. -/
theorem rewriteBuildConfig_settled (V : String) (v v1 : BuildConfig)
    (hV : ':' ∉ V.data) (h : rewriteBuildConfig V v = Step.go v1) :
    rewriteBuildConfig V v1 = Step.skip := by
  obtain ⟨target, repo, tag, rest, git, _, hgit, hsp, _, _, rfl⟩ :=
    rewriteBuildConfig_go_inv V v v1 h
  unfold rewriteBuildConfig
  simp only [hgit, Split_Join_of_head target.Name repo tag V rest hsp hV]
  simp

/-- A BuildConfig that is not a Git one, or whose compared tag is the desired version, is
skipped; and only such a one is. -/
theorem rewriteBuildConfig_skip_iff (V : String) (v : BuildConfig) :
    rewriteBuildConfig V v = Step.skip ↔
      v.Spec.CommonSpec.Output.To ≠ none ∧
        (v.Spec.CommonSpec.Source.Type_ ≠ "Git" ∨ comparedTag v.outputName = some V) := by
  unfold rewriteBuildConfig comparedTag BuildConfig.outputName
  cases hto : v.Spec.CommonSpec.Output.To with
  | none => simp
  | some target =>
    simp only
    by_cases hgit : v.Spec.CommonSpec.Source.Type_ ≠ "Git"
    · simp [hgit]
    · rw [if_neg hgit]
      cases hsp : Split target.Name ':' with
      | nil => simp [hgit]
      | cons repo tl =>
        cases tl with
        | nil => simp [hgit]
        | cons tag rest =>
          simp only
          by_cases htag : tag = V
          · simp [htag]
          · rw [if_neg htag]
            cases hg : v.Spec.CommonSpec.Source.Git <;> simp [hgit, htag]

/-- The Build of lines 118-137 is in the namespace of its BuildConfig and has a single
owner reference, which names the BuildConfig. -/
theorem newBuild_ok_inv (v : BuildConfig) (b : Build) (h : newBuild v = Except.ok b) :
    b.Namespace = v.Namespace ∧
      b.Name = v.Name ++ "-" ++ Itoa v.Status.LastVersion ∧
      b.OwnerReferences =
        [{ APIVersion := v.APIVersion, Kind := v.Kind, Name := v.Name, UID := v.UID,
           Controller := some true }] ∧
      b.Spec.CommonSpec = v.Spec.CommonSpec := by
  unfold newBuild at h
  cases hl : v.Labels with
  | none => rw [hl] at h; simp at h
  | some labels0 =>
    rw [hl] at h
    simp only [Except.ok.injEq] at h
    subst h
    exact ⟨rfl, rfl, rfl, rfl⟩

/-- The events of an iteration over a BuildConfig concern that BuildConfig, succeed, and
are writes. -/
theorem bcEvents_key (V : String) (v : BuildConfig) (ns name : String) (e : Event)
    (he : e ∈ bcEvents V v)
    (hp : e.updatesBuildConfig ns name = true ∨ e.createsBuildFor ns name = true) :
    v.Namespace = ns ∧ v.Name = name := by
  unfold bcEvents at he
  cases hr : rewriteBuildConfig V v with
  | skip => rw [hr] at he; simp at he
  | panic p => rw [hr] at he; simp at he
  | go v1 =>
    rw [hr] at he
    simp only at he
    obtain ⟨hk1, hk2⟩ := rewriteBuildConfig_go_key V v v1 hr
    cases hb : newBuild v1 with
    | error p => rw [hb] at he; simp at he
    | ok b =>
      rw [hb] at he
      obtain ⟨hbns, _, hown, _⟩ := newBuild_ok_inv v1 b hb
      simp only [List.mem_cons, List.mem_singleton, List.not_mem_nil, or_false] at he
      rcases he with rfl | rfl
      · simp only [Event.updatesBuildConfig, Event.createsBuildFor, decide_eq_true_eq] at hp
        rcases hp with hp | hp
        · exact ⟨hk1 ▸ hp.1, hk2 ▸ hp.2⟩
        · simp at hp
      · simp only [Event.updatesBuildConfig, Event.createsBuildFor, hown, hbns] at hp
        rcases hp with hp | hp
        · simp at hp
        · simp at hp
          exact ⟨hk1 ▸ hp.1, hk2 ▸ hp.2⟩

/-! ## Keys, counting and the stored BuildConfigs -/

theorem wrapInt64_of_range (x : Int) (h1 : -2 ^ 63 ≤ x) (h2 : x < 2 ^ 63) :
    wrapInt64 x = x := by
  unfold wrapInt64
  omega

theorem split_of_nodup_keys {α κ : Type} (key : α → κ) (l : List α) (x : α)
    (hnd : (l.map key).Nodup) (hx : x ∈ l) :
    ∃ pre post, l = pre ++ x :: post ∧ (∀ y ∈ pre, key y ≠ key x) ∧
      (∀ y ∈ post, key y ≠ key x) := by
  obtain ⟨pre, post, rfl⟩ := List.append_of_mem hx
  refine ⟨pre, post, rfl, ?_, ?_⟩
  · intro y hy heq
    rw [List.map_append, List.map_cons, List.nodup_append] at hnd
    exact hnd.2.2 (List.mem_map_of_mem key hy) (by rw [heq]; exact List.mem_cons_self _ _)
  · intro y hy heq
    rw [List.map_append, List.map_cons, List.nodup_append, List.nodup_cons] at hnd
    exact hnd.2.1.1 (by rw [← heq]; exact List.mem_map_of_mem key hy)

theorem nodup_keys_filter {α κ : Type} (key : α → κ) (l : List α) (p : α → Bool)
    (hnd : (l.map key).Nodup) : ((l.filter p).map key).Nodup :=
  List.Nodup.sublist (List.Sublist.map key (List.filter_sublist l)) hnd

theorem countP_flatMap_eq_zero {α : Type} (p : Event → Bool) (f : α → List Event)
    (l : List α) (h : ∀ y ∈ l, ∀ e ∈ f y, p e = false) :
    (l.flatMap f).countP p = 0 := by
  rw [List.countP_eq_zero]
  intro e he
  obtain ⟨y, hy, hey⟩ := List.mem_flatMap.mp he
  simp [h y hy e hey]

theorem bcApply_keys (V : String) (s : Store) (v : BuildConfig) :
    (bcApply V s v).buildConfigs.map BuildConfig.key = s.buildConfigs.map BuildConfig.key := by
  unfold bcApply
  cases hr : rewriteBuildConfig V v with
  | skip => rfl
  | panic p => rfl
  | go v1 =>
    simp only
    cases hb : newBuild v1 with
    | error p => rfl
    | ok b =>
      simp only [Store.addBuild, Store.putBuildConfig, List.map_map]
      apply List.map_congr_left
      intro x _
      simp only [Function.comp, BuildConfig.key]
      split
      · rename_i hx
        rw [hx.1, hx.2]
      · rfl

theorem foldl_bcApply_keys (V : String) :
    ∀ (items : List BuildConfig) (s : Store),
      (items.foldl (bcApply V) s).buildConfigs.map BuildConfig.key =
        s.buildConfigs.map BuildConfig.key := by
  intro items
  induction items with
  | nil => intro s; rfl
  | cons v rest ih => intro s; rw [List.foldl_cons, ih, bcApply_keys]

theorem bcApply_mem_of_key_ne (V : String) (s : Store) (v x : BuildConfig)
    (hx : x ∈ s.buildConfigs) (hk : v.key ≠ x.key) : x ∈ (bcApply V s v).buildConfigs := by
  unfold bcApply
  cases hr : rewriteBuildConfig V v with
  | skip => exact hx
  | panic p => exact hx
  | go v1 =>
    simp only
    cases hb : newBuild v1 with
    | error p => exact hx
    | ok b =>
      obtain ⟨hk1, hk2⟩ := rewriteBuildConfig_go_key V v v1 hr
      simp only [Store.addBuild, Store.putBuildConfig, List.mem_map]
      refine ⟨x, hx, ?_⟩
      rw [if_neg]
      intro hxe
      apply hk
      simp only [BuildConfig.key, Prod.mk.injEq]
      exact ⟨(hxe.1.trans hk1).symm, (hxe.2.trans hk2).symm⟩

theorem foldl_bcApply_mem_of_key_ne (V : String) (x : BuildConfig) :
    ∀ (items : List BuildConfig) (s : Store), x ∈ s.buildConfigs →
      (∀ v ∈ items, v.key ≠ x.key) → x ∈ (items.foldl (bcApply V) s).buildConfigs := by
  intro items
  induction items with
  | nil => intro s hx _; exact hx
  | cons v rest ih =>
    intro s hx hk
    rw [List.foldl_cons]
    exact ih _ (bcApply_mem_of_key_ne V s v x hx (hk v (List.mem_cons_self _ _)))
      (fun w hw => hk w (List.mem_cons_of_mem _ hw))

theorem bcApply_mem_go (V : String) (s : Store) (v v1 : BuildConfig) (b : Build)
    (hv : v ∈ s.buildConfigs) (hr : rewriteBuildConfig V v = Step.go v1)
    (hb : newBuild v1 = Except.ok b) : v1 ∈ (bcApply V s v).buildConfigs := by
  obtain ⟨hk1, hk2⟩ := rewriteBuildConfig_go_key V v v1 hr
  unfold bcApply
  rw [hr]
  simp only [hb, Store.addBuild, Store.putBuildConfig, List.mem_map]
  exact ⟨v, hv, by rw [if_pos ⟨hk1.symm, hk2.symm⟩]⟩

/-! ## The events and stores of the DeploymentConfig loop -/

theorem trigEvents_call (V : String) (v : DeploymentConfig) :
    ∀ (todo done : List DeploymentTriggerPolicy) (e : Event), e ∈ trigEvents V v done todo →
      e.err = none ∧ ∃ d, e.call = Call.UpdateDeploymentConfig d ∧
        d.Namespace = v.Namespace ∧ d.Name = v.Name := by
  intro todo
  induction todo with
  | nil => intro done e he; simp [trigEvents] at he
  | cons trig rest ih =>
    intro done e he
    rw [trigEvents] at he
    cases hr : rewriteTrigger V trig with
    | skip => rw [hr] at he; exact ih _ e he
    | panic p => rw [hr] at he; exact ih _ e he
    | go trig1 =>
      rw [hr] at he
      simp only [List.mem_cons] at he
      rcases he with rfl | he
      · exact ⟨rfl, _, rfl, rfl, rfl⟩
      · exact ih _ e he

theorem dcEvents_call (V : String) (v : DeploymentConfig) (e : Event)
    (he : e ∈ dcEvents V v) :
    e.err = none ∧ ∃ d, e.call = Call.UpdateDeploymentConfig d ∧
      d.Namespace = v.Namespace ∧ d.Name = v.Name :=
  trigEvents_call V v _ _ e he

theorem dcEvents_not_buildConfig (V : String) (ns name : String)
    (l : List DeploymentConfig) :
    (l.flatMap (dcEvents V)).countP (Event.updatesBuildConfig ns name) = 0 ∧
      (l.flatMap (dcEvents V)).countP (Event.createsBuildFor ns name) = 0 := by
  constructor
  · apply countP_flatMap_eq_zero
    intro y _ e he
    obtain ⟨_, d, hd, _⟩ := dcEvents_call V y e he
    simp [Event.updatesBuildConfig, hd]
  · apply countP_flatMap_eq_zero
    intro y _ e he
    obtain ⟨_, d, hd, _⟩ := dcEvents_call V y e he
    simp [Event.createsBuildFor, hd]

theorem bcEvents_count_zero (V : String) (ns name : String) (l : List BuildConfig)
    (hk : ∀ y ∈ l, y.key ≠ (ns, name)) :
    (l.flatMap (bcEvents V)).countP (Event.updatesBuildConfig ns name) = 0 ∧
      (l.flatMap (bcEvents V)).countP (Event.createsBuildFor ns name) = 0 := by
  constructor
  · apply countP_flatMap_eq_zero
    intro y hy e he
    by_contra hp
    obtain ⟨h1, h2⟩ := bcEvents_key V y ns name e he (Or.inl (by simpa using hp))
    exact hk y hy (by simp [BuildConfig.key, h1, h2])
  · apply countP_flatMap_eq_zero
    intro y hy e he
    by_contra hp
    obtain ⟨h1, h2⟩ := bcEvents_key V y ns name e he (Or.inr (by simpa using hp))
    exact hk y hy (by simp [BuildConfig.key, h1, h2])

/-! ## The loops under an arbitrary fault oracle -/

theorem EndedWith_nil (fl : Flow) : EndedWith [] fl := Or.inl (by simp)

theorem EndedWith_append (evs1 evs2 : List Event) (fl : Flow)
    (h1 : ∀ e ∈ evs1, e.err = none) (h2 : EndedWith evs2 fl) :
    EndedWith (evs1 ++ evs2) fl := by
  rcases h2 with h2 | ⟨pre, call, err, hev, hpre, hfl⟩
  · left
    intro e he
    rcases List.mem_append.mp he with he | he
    · exact h1 e he
    · exact h2 e he
  · right
    refine ⟨evs1 ++ pre, call, err, by rw [hev, List.append_assoc], ?_, hfl⟩
    intro e he
    rcases List.mem_append.mp he with he | he
    · exact h1 e he
    · exact hpre e he

theorem EndedWith_next (evs : List Event) (h : EndedWith evs Flow.next) :
    ∀ e ∈ evs, e.err = none := by
  rcases h with h | ⟨_, _, _, _, _, hfl⟩
  · exact h
  · cases hfl

theorem buildConfigBody_trace (V : String) (v : BuildConfig) (c c1 : Client) (fl : Flow)
    (h : buildConfigBody V v c = (c1, fl)) :
    c1.faults = c.faults ∧ c1.store.deploymentConfigs = c.store.deploymentConfigs ∧
      ∃ evs, c1.log = c.log ++ evs ∧ EndedWith evs fl ∧
        ∀ e ∈ evs, FromBuildConfig V v e := by
  unfold buildConfigBody at h
  cases hr : rewriteBuildConfig V v with
  | skip =>
    rw [hr] at h
    simp only [Prod.mk.injEq] at h
    obtain ⟨rfl, rfl⟩ := h
    exact ⟨rfl, rfl, [], by simp, EndedWith_nil _, by simp⟩
  | panic p =>
    rw [hr] at h
    simp only [Prod.mk.injEq] at h
    obtain ⟨rfl, rfl⟩ := h
    exact ⟨rfl, rfl, [], by simp, EndedWith_nil _, by simp⟩
  | go v1 =>
    rw [hr] at h
    simp only [Client.UpdateBuildConfig, Client.record] at h
    cases hf : c.faults c.log.length with
    | some err =>
      rw [hf] at h
      simp only [Prod.mk.injEq] at h
      obtain ⟨rfl, rfl⟩ := h
      refine ⟨rfl, rfl, [⟨Call.UpdateBuildConfig v1, some err⟩], rfl, ?_, ?_⟩
      · exact Or.inr ⟨[], _, err, List.nil_append _ |>.symm, by simp, rfl⟩
      · intro e he
        simp only [List.mem_singleton] at he
        subst he
        exact ⟨v1, hr, Or.inl rfl⟩
    | none =>
      rw [hf] at h
      simp only at h
      cases hb : newBuild v1 with
      | error p =>
        rw [hb] at h
        simp only [Prod.mk.injEq] at h
        obtain ⟨rfl, rfl⟩ := h
        refine ⟨rfl, rfl, [⟨Call.UpdateBuildConfig v1, none⟩], rfl, Or.inl (by simp), ?_⟩
        intro e he
        simp only [List.mem_singleton] at he
        subst he
        exact ⟨v1, hr, Or.inl rfl⟩
      | ok b =>
        rw [hb] at h
        simp only [Client.CreateBuild, Client.record] at h
        cases hf2 : c.faults (c.log ++ [Event.mk (Call.UpdateBuildConfig v1) none]).length with
        | some err =>
          rw [hf2] at h
          simp only [Prod.mk.injEq] at h
          obtain ⟨rfl, rfl⟩ := h
          refine ⟨rfl, rfl, [Event.mk (Call.UpdateBuildConfig v1) none,
            Event.mk (Call.CreateBuild b) (some err)], by simp, ?_, ?_⟩
          · exact Or.inr ⟨[Event.mk (Call.UpdateBuildConfig v1) none], _, err, rfl, by simp, rfl⟩
          · intro e he
            simp only [List.mem_cons, List.mem_singleton, List.not_mem_nil, or_false] at he
            rcases he with rfl | rfl
            · exact ⟨v1, hr, Or.inl rfl⟩
            · exact ⟨v1, hr, Or.inr ⟨b, hb, rfl⟩⟩
        | none =>
          rw [hf2] at h
          simp only [Prod.mk.injEq] at h
          obtain ⟨rfl, rfl⟩ := h
          refine ⟨rfl, rfl, [Event.mk (Call.UpdateBuildConfig v1) none,
            Event.mk (Call.CreateBuild b) none], by simp, Or.inl (by simp), ?_⟩
          intro e he
          simp only [List.mem_cons, List.mem_singleton, List.not_mem_nil, or_false] at he
          rcases he with rfl | rfl
          · exact ⟨v1, hr, Or.inl rfl⟩
          · exact ⟨v1, hr, Or.inr ⟨b, hb, rfl⟩⟩

theorem buildConfigLoop_trace (V : String) :
    ∀ (items : List BuildConfig) (c c1 : Client) (fl : Flow),
      buildConfigLoop V items c = (c1, fl) →
      c1.faults = c.faults ∧ c1.store.deploymentConfigs = c.store.deploymentConfigs ∧
        ∃ evs, c1.log = c.log ++ evs ∧ EndedWith evs fl ∧
          ∀ e ∈ evs, ∃ v ∈ items, FromBuildConfig V v e := by
  intro items
  induction items with
  | nil =>
    intro c c1 fl h
    simp only [buildConfigLoop, Prod.mk.injEq] at h
    obtain ⟨rfl, rfl⟩ := h
    exact ⟨rfl, rfl, [], by simp, EndedWith_nil _, by simp⟩
  | cons v rest ih =>
    intro c c1 fl h
    rw [buildConfigLoop] at h
    cases hb : buildConfigBody V v c with
    | mk c2 fl2 =>
      rw [hb] at h
      obtain ⟨hf2, hdc2, evs2, hlog2, hend2, hfrom2⟩ := buildConfigBody_trace V v c c2 fl2 hb
      cases fl2 with
      | stop o =>
        simp only [Prod.mk.injEq] at h
        obtain ⟨rfl, rfl⟩ := h
        exact ⟨hf2, hdc2, evs2, hlog2, hend2,
          fun e he => ⟨v, List.mem_cons_self _ _, hfrom2 e he⟩⟩
      | next =>
        simp only at h
        obtain ⟨hf1, hdc1, evs1, hlog1, hend1, hfrom1⟩ := ih c2 c1 fl h
        refine ⟨hf1.trans hf2, hdc1.trans hdc2, evs2 ++ evs1, by rw [hlog1, hlog2, List.append_assoc],
          EndedWith_append _ _ _ (EndedWith_next _ hend2) hend1, ?_⟩
        intro e he
        rcases List.mem_append.mp he with he | he
        · exact ⟨v, List.mem_cons_self _ _, hfrom2 e he⟩
        · obtain ⟨w, hw, hfw⟩ := hfrom1 e he
          exact ⟨w, List.mem_cons_of_mem _ hw, hfw⟩

theorem triggerLoop_trace (V : String) (v : DeploymentConfig) :
    ∀ (todo done : List DeploymentTriggerPolicy) (c c1 : Client) (fl : Flow),
      triggerLoop V v done todo c = (c1, fl) →
      c1.faults = c.faults ∧ c1.store.buildConfigs = c.store.buildConfigs ∧
        ∃ evs, c1.log = c.log ++ evs ∧ EndedWith evs fl ∧ (evs = [] → c1.store = c.store) ∧
          ∀ e ∈ evs, ∃ d, e.call = Call.UpdateDeploymentConfig d := by
  intro todo
  induction todo with
  | nil =>
    intro done c c1 fl h
    simp only [triggerLoop, Prod.mk.injEq] at h
    obtain ⟨rfl, rfl⟩ := h
    exact ⟨rfl, rfl, [], by simp, EndedWith_nil _, fun _ => rfl, by simp⟩
  | cons trig rest ih =>
    intro done c c1 fl h
    rw [triggerLoop] at h
    cases hr : rewriteTrigger V trig with
    | skip =>
      rw [hr] at h
      exact ih _ c c1 fl h
    | panic p =>
      rw [hr] at h
      simp only [Prod.mk.injEq] at h
      obtain ⟨rfl, rfl⟩ := h
      exact ⟨rfl, rfl, [], by simp, EndedWith_nil _, fun _ => rfl, by simp⟩
    | go trig1 =>
      rw [hr] at h
      simp only [Client.UpdateDeploymentConfig, Client.record] at h
      cases hf : c.faults c.log.length with
      | some err =>
        rw [hf] at h
        simp only [Prod.mk.injEq] at h
        obtain ⟨rfl, rfl⟩ := h
        refine ⟨rfl, rfl, [⟨Call.UpdateDeploymentConfig _, some err⟩], rfl, ?_, ?_, ?_⟩
        · exact Or.inr ⟨[], _, err, List.nil_append _ |>.symm, by simp, rfl⟩
        · intro hnil
          simp at hnil
        · intro e he
          simp only [List.mem_singleton] at he
          subst he
          exact ⟨_, rfl⟩
      | none =>
        rw [hf] at h
        simp only at h
        obtain ⟨hf1, hbc1, evs1, hlog1, hend1, _, hfrom1⟩ := ih _ _ c1 fl h
        refine ⟨hf1, hbc1,
          Event.mk (Call.UpdateDeploymentConfig
            { v with Spec := { Triggers := done ++ trig1 :: rest } }) none :: evs1,
          by rw [hlog1]; simp, ?_, ?_, ?_⟩
        · exact EndedWith_append [_] evs1 fl (by simp) hend1
        · intro hnil
          simp at hnil
        · intro e he
          rcases List.mem_cons.mp he with rfl | he
          · exact ⟨_, rfl⟩
          · exact hfrom1 e he

theorem deployConfigLoop_trace (V : String) :
    ∀ (items : List DeploymentConfig) (c c1 : Client) (fl : Flow),
      deployConfigLoop V items c = (c1, fl) →
      c1.faults = c.faults ∧ c1.store.buildConfigs = c.store.buildConfigs ∧
        ∃ evs, c1.log = c.log ++ evs ∧ EndedWith evs fl ∧ (evs = [] → c1.store = c.store) ∧
          ∀ e ∈ evs, ∃ d, e.call = Call.UpdateDeploymentConfig d := by
  intro items
  induction items with
  | nil =>
    intro c c1 fl h
    simp only [deployConfigLoop, Prod.mk.injEq] at h
    obtain ⟨rfl, rfl⟩ := h
    exact ⟨rfl, rfl, [], by simp, EndedWith_nil _, fun _ => rfl, by simp⟩
  | cons v rest ih =>
    intro c c1 fl h
    rw [deployConfigLoop] at h
    cases hb : triggerLoop V v [] v.Spec.Triggers c with
    | mk c2 fl2 =>
      rw [hb] at h
      obtain ⟨hf2, hbc2, evs2, hlog2, hend2, hst2, hfrom2⟩ :=
        triggerLoop_trace V v _ _ c c2 fl2 hb
      cases fl2 with
      | stop o =>
        simp only [Prod.mk.injEq] at h
        obtain ⟨rfl, rfl⟩ := h
        exact ⟨hf2, hbc2, evs2, hlog2, hend2, hst2, hfrom2⟩
      | next =>
        simp only at h
        obtain ⟨hf1, hbc1, evs1, hlog1, hend1, hst1, hfrom1⟩ := ih c2 c1 fl h
        refine ⟨hf1.trans hf2, hbc1.trans hbc2, evs2 ++ evs1,
          by rw [hlog1, hlog2, List.append_assoc],
          EndedWith_append _ _ _ (EndedWith_next _ hend2) hend1, ?_, ?_⟩
        · intro hnil
          rw [List.append_eq_nil] at hnil
          rw [hst1 hnil.2, hst2 hnil.1]
        intro e he
        rcases List.mem_append.mp he with he | he
        · exact hfrom2 e he
        · exact hfrom1 e he

/-! ## A whole pass under an arbitrary fault oracle -/

/-- Where the events of a pass come from, and how the pass ends after a failed call. -/
theorem Reconcile_trace (r : AppDeploymentReconciler) (req : Request) (s : Store)
    (f : Nat → Option StoreError) :
    EndedWith (logOf r req s f) (Flow.stop (outcomeOf r req s f)) ∧
      ∀ e ∈ logOf r req s f,
        e.call = Call.Get req.Namespace req.Name ∨
        e.call = Call.ListBuildConfigs req.Namespace ∨
        e.call = Call.ListDeploymentConfigs req.Namespace ∨
        (∃ d, e.call = Call.UpdateDeploymentConfig d) ∨
        ∃ V, ∃ v ∈ listedBuildConfigs req s, FromBuildConfig V v e := by
  unfold logOf outcomeOf Reconcile
  simp only [Client.Get, Client.start, Client.record, List.nil_append, List.length_nil]
  cases hf0 : f 0 with
  | some err =>
    simp only
    exact ⟨Or.inr ⟨[], _, err, rfl, by simp, rfl⟩, by simp⟩
  | none =>
    simp only
    cases hfind : s.configMaps.find?
        (fun m => decide (m.Namespace = req.Namespace ∧ m.Name = req.Name)) with
    | none =>
      simp only
      exact ⟨Or.inr ⟨[], _, StoreError.NotFound, rfl, by simp, rfl⟩, by simp⟩
    | some config =>
      simp only
      by_cases hname : config.Name ≠ r.CfgMapName
      · rw [if_pos hname]
        exact ⟨Or.inl (by simp), by simp⟩
      · rw [if_neg hname]
        simp only [Client.ListBuildConfigs, Client.record, List.length_singleton]
        cases hf1 : f 1 with
        | some err =>
          simp only
          refine ⟨Or.inr ⟨[Event.mk (Call.Get req.Namespace req.Name) none], _, err, rfl,
            by simp, rfl⟩, by simp⟩
        | none =>
          simp only
          cases hb : buildConfigLoop (desiredVersionOf r config)
              (List.filter (fun x => decide (x.Namespace = req.Namespace)) s.buildConfigs)
              { store := s,
                log := [Event.mk (Call.Get req.Namespace req.Name) none] ++
                  [Event.mk (Call.ListBuildConfigs req.Namespace) none],
                faults := f } with
          | mk c3 fl =>
            obtain ⟨hf3, hdc3, evs3, hlog3, hend3, hfrom3⟩ := buildConfigLoop_trace _ _ _ c3 fl hb
            have hfrom3' : ∀ e ∈ evs3, ∃ V, ∃ v ∈ listedBuildConfigs req s,
                FromBuildConfig V v e := fun e he => ⟨_, hfrom3 e he⟩
            cases fl with
            | stop o =>
              simp only
              rw [hlog3]
              refine ⟨EndedWith_append _ _ _ (by simp) hend3, ?_⟩
              intro e he
              rcases List.mem_append.mp he with he | he
              · simp only [List.cons_append, List.nil_append, List.mem_cons,
                  List.mem_singleton, List.not_mem_nil, or_false] at he
                rcases he with rfl | rfl
                · exact Or.inl rfl
                · exact Or.inr (Or.inl rfl)
              · exact Or.inr (Or.inr (Or.inr (Or.inr (hfrom3' e he))))
            | next =>
              simp only [Client.ListDeploymentConfigs, Client.record]
              have hok3 := EndedWith_next _ hend3
              cases hf4 : c3.faults c3.log.length with
              | some err =>
                simp only
                rw [hlog3]
                refine ⟨Or.inr ⟨_, _, err, rfl, ?_, rfl⟩, ?_⟩
                · intro e he
                  rcases List.mem_append.mp he with he | he
                  · simp only [List.cons_append, List.nil_append, List.mem_cons,
                      List.mem_singleton, List.not_mem_nil, or_false] at he
                    rcases he with rfl | rfl <;> rfl
                  · exact hok3 e he
                · intro e he
                  rcases List.mem_append.mp he with he | he
                  · rcases List.mem_append.mp he with he | he
                    · simp only [List.cons_append, List.nil_append, List.mem_cons,
                        List.mem_singleton, List.not_mem_nil, or_false] at he
                      rcases he with rfl | rfl
                      · exact Or.inl rfl
                      · exact Or.inr (Or.inl rfl)
                    · exact Or.inr (Or.inr (Or.inr (Or.inr (hfrom3' e he))))
                  · simp only [List.mem_singleton] at he
                    subst he
                    exact Or.inr (Or.inr (Or.inl rfl))
              | none =>
                simp only
                cases hd : deployConfigLoop (desiredVersionOf r config)
                    (List.filter (fun x => decide (x.Namespace = req.Namespace))
                      c3.store.deploymentConfigs)
                    { store := c3.store,
                      log := c3.log ++
                        [Event.mk (Call.ListDeploymentConfigs req.Namespace) none],
                      faults := c3.faults } with
                | mk c5 fl5 =>
                  obtain ⟨_, _, evs5, hlog5, hend5, _, hfrom5⟩ :=
                    deployConfigLoop_trace _ _ _ c5 fl5 hd
                  have hpre : ∀ e ∈ [Event.mk (Call.Get req.Namespace req.Name) none] ++
                      [Event.mk (Call.ListBuildConfigs req.Namespace) none] ++ evs3 ++
                      [Event.mk (Call.ListDeploymentConfigs req.Namespace) none],
                      e.err = none := by
                    intro e he
                    rcases List.mem_append.mp he with he | he
                    · rcases List.mem_append.mp he with he | he
                      · simp only [List.cons_append, List.nil_append, List.mem_cons,
                          List.mem_singleton, List.not_mem_nil, or_false] at he
                        rcases he with rfl | rfl <;> rfl
                      · exact hok3 e he
                    · simp only [List.mem_singleton] at he
                      subst he
                      rfl
                  have horigin : ∀ e ∈ [Event.mk (Call.Get req.Namespace req.Name) none] ++
                      [Event.mk (Call.ListBuildConfigs req.Namespace) none] ++ evs3 ++
                      [Event.mk (Call.ListDeploymentConfigs req.Namespace) none] ++ evs5,
                      e.call = Call.Get req.Namespace req.Name ∨
                      e.call = Call.ListBuildConfigs req.Namespace ∨
                      e.call = Call.ListDeploymentConfigs req.Namespace ∨
                      (∃ d, e.call = Call.UpdateDeploymentConfig d) ∨
                      ∃ V, ∃ v ∈ listedBuildConfigs req s, FromBuildConfig V v e := by
                    intro e he
                    rcases List.mem_append.mp he with he | he
                    · rcases List.mem_append.mp he with he | he
                      · rcases List.mem_append.mp he with he | he
                        · simp only [List.cons_append, List.nil_append, List.mem_cons,
                            List.mem_singleton, List.not_mem_nil, or_false] at he
                          rcases he with rfl | rfl
                          · exact Or.inl rfl
                          · exact Or.inr (Or.inl rfl)
                        · exact Or.inr (Or.inr (Or.inr (Or.inr (hfrom3' e he))))
                      · simp only [List.mem_singleton] at he
                        subst he
                        exact Or.inr (Or.inr (Or.inl rfl))
                    · exact Or.inr (Or.inr (Or.inr (Or.inl (hfrom5 e he))))
                  cases fl5 with
                  | stop o =>
                    simp only
                    rw [hlog5, hlog3]
                    exact ⟨EndedWith_append _ _ _ hpre hend5, horigin⟩
                  | next =>
                    simp only
                    rw [hlog5, hlog3]
                    refine ⟨Or.inl ?_, horigin⟩
                    intro e he
                    rcases List.mem_append.mp he with he | he
                    · exact hpre e he
                    · exact EndedWith_next _ hend5 e he

/-! ## The DeploymentConfig step only starts after a Build step without failure -/

theorem FromBuildConfig_inBuildStep (V : String) (v : BuildConfig) (e : Event)
    (h : FromBuildConfig V v e) :
    e.call.inBuildStep = true ∧ (∀ ns, e.call ≠ Call.ListDeploymentConfigs ns) ∧
      ∀ d, e.call ≠ Call.UpdateDeploymentConfig d := by
  obtain ⟨v1, _, h | ⟨b, _, h⟩⟩ := h <;> simp [h, Call.inBuildStep]

/-- A pass that lists or updates DeploymentConfigs has had no failure in its Build step;
and a pass without an `Update` of a DeploymentConfig leaves the stored DeploymentConfigs
as they were. -/
theorem Reconcile_phases (r : AppDeploymentReconciler) (req : Request) (s : Store)
    (f : Nat → Option StoreError) :
    (∀ e1 ∈ logOf r req s f,
        (e1.call = Call.ListDeploymentConfigs req.Namespace ∨
          ∃ d, e1.call = Call.UpdateDeploymentConfig d) →
        ∀ e ∈ logOf r req s f, e.call.inBuildStep = true → e.err = none) ∧
      ((∀ e ∈ logOf r req s f, ∀ d, e.call ≠ Call.UpdateDeploymentConfig d) →
        (storeAfter r req s f).deploymentConfigs = s.deploymentConfigs) := by
  unfold logOf storeAfter Reconcile
  simp only [Client.Get, Client.start, Client.record, List.nil_append, List.length_nil]
  cases hf0 : f 0 with
  | some err => simp
  | none =>
    simp only
    cases hfind : s.configMaps.find?
        (fun m => decide (m.Namespace = req.Namespace ∧ m.Name = req.Name)) with
    | none => simp
    | some config =>
      simp only
      by_cases hname : config.Name ≠ r.CfgMapName
      · rw [if_pos hname]
        simp
      · rw [if_neg hname]
        simp only [Client.ListBuildConfigs, Client.record, List.length_singleton]
        cases hf1 : f 1 with
        | some err => simp
        | none =>
          simp only
          cases hb : buildConfigLoop (desiredVersionOf r config)
              (List.filter (fun x => decide (x.Namespace = req.Namespace)) s.buildConfigs)
              { store := s,
                log := [Event.mk (Call.Get req.Namespace req.Name) none] ++
                  [Event.mk (Call.ListBuildConfigs req.Namespace) none],
                faults := f } with
          | mk c3 fl =>
            obtain ⟨hf3, hdc3, evs3, hlog3, hend3, hfrom3⟩ := buildConfigLoop_trace _ _ _ c3 fl hb
            have h3 : ∀ e ∈ evs3, e.call.inBuildStep = true ∧
                (∀ ns, e.call ≠ Call.ListDeploymentConfigs ns) ∧
                ∀ d, e.call ≠ Call.UpdateDeploymentConfig d := by
              intro e he
              obtain ⟨v, _, hv⟩ := hfrom3 e he
              exact FromBuildConfig_inBuildStep _ v e hv
            have hdc3' : c3.store.deploymentConfigs = s.deploymentConfigs := hdc3
            cases fl with
            | stop o =>
              simp only
              rw [hlog3]
              refine ⟨?_, fun _ => hdc3'⟩
              intro e1 he1 hcall
              exfalso
              rcases List.mem_append.mp he1 with he1 | he1
              · simp only [List.cons_append, List.nil_append, List.mem_cons,
                  List.mem_singleton, List.not_mem_nil, or_false] at he1
                rcases he1 with rfl | rfl <;> simp at hcall
              · obtain ⟨_, h1, h2⟩ := h3 e1 he1
                rcases hcall with hcall | ⟨d, hcall⟩
                · exact h1 _ hcall
                · exact h2 _ hcall
            | next =>
              simp only [Client.ListDeploymentConfigs, Client.record]
              have hok3 := EndedWith_next _ hend3
              cases hf4 : c3.faults c3.log.length with
              | some err =>
                simp only
                rw [hlog3]
                refine ⟨?_, fun _ => hdc3'⟩
                intro e1 _ _ e he hstep
                rcases List.mem_append.mp he with he | he
                · rcases List.mem_append.mp he with he | he
                  · simp only [List.cons_append, List.nil_append, List.mem_cons,
                      List.mem_singleton, List.not_mem_nil, or_false] at he
                    rcases he with rfl | rfl <;> rfl
                  · exact hok3 e he
                · simp only [List.mem_singleton] at he
                  subst he
                  simp [Call.inBuildStep] at hstep
              | none =>
                simp only
                cases hd : deployConfigLoop (desiredVersionOf r config)
                    (List.filter (fun x => decide (x.Namespace = req.Namespace))
                      c3.store.deploymentConfigs)
                    { store := c3.store,
                      log := c3.log ++
                        [Event.mk (Call.ListDeploymentConfigs req.Namespace) none],
                      faults := c3.faults } with
                | mk c5 fl5 =>
                  obtain ⟨_, _, evs5, hlog5, hend5, hst5, hfrom5⟩ :=
                    deployConfigLoop_trace _ _ _ c5 fl5 hd
                  have hA : ∀ e ∈ [Event.mk (Call.Get req.Namespace req.Name) none] ++
                      [Event.mk (Call.ListBuildConfigs req.Namespace) none] ++ evs3 ++
                      [Event.mk (Call.ListDeploymentConfigs req.Namespace) none] ++ evs5,
                      e.call.inBuildStep = true → e.err = none := by
                    intro e he hstep
                    rcases List.mem_append.mp he with he | he
                    · rcases List.mem_append.mp he with he | he
                      · rcases List.mem_append.mp he with he | he
                        · simp only [List.cons_append, List.nil_append, List.mem_cons,
                            List.mem_singleton, List.not_mem_nil, or_false] at he
                          rcases he with rfl | rfl <;> rfl
                        · exact hok3 e he
                      · simp only [List.mem_singleton] at he
                        subst he
                        rfl
                    · obtain ⟨d, hd5⟩ := hfrom5 e he
                      simp [hd5, Call.inBuildStep] at hstep
                  have hB : (∀ e ∈ [Event.mk (Call.Get req.Namespace req.Name) none] ++
                      [Event.mk (Call.ListBuildConfigs req.Namespace) none] ++ evs3 ++
                      [Event.mk (Call.ListDeploymentConfigs req.Namespace) none] ++ evs5,
                      ∀ d, e.call ≠ Call.UpdateDeploymentConfig d) →
                      c5.store.deploymentConfigs = s.deploymentConfigs := by
                    intro hno
                    have hnil : evs5 = [] := by
                      cases evs5 with
                      | nil => rfl
                      | cons e rest =>
                        exfalso
                        obtain ⟨d, hd5⟩ := hfrom5 e (List.mem_cons_self _ _)
                        exact hno e (List.mem_append_right _ (List.mem_cons_self _ _)) d hd5
                    rw [hst5 hnil]
                    exact hdc3'
                  cases fl5 with
                  | stop o =>
                    simp only
                    rw [hlog5, hlog3]
                    exact ⟨fun _ _ _ => hA, hB⟩
                  | next =>
                    simp only
                    rw [hlog5, hlog3]
                    exact ⟨fun _ _ _ => hA, hB⟩

/-! ## A failed call ends the pass -/

theorem failed_call_is_last (evs pre post : List Event) (call : Call) (err : StoreError)
    (fl : Flow) (h : EndedWith evs fl)
    (heq : evs = pre ++ Event.mk call (some err) :: post) :
    post = [] ∧ fl = Flow.stop (Outcome.returned (IgnoreNotFound err)) := by
  rcases h with h | ⟨pre1, call1, err1, hev, hpre1, hfl⟩
  · have hmem : Event.mk call (some err) ∈ evs := by rw [heq]; simp
    have := h _ hmem
    simp at this
  · rcases List.eq_nil_or_concat post with hpost | ⟨post1, z, hpost⟩
    · subst hpost
      rw [hev] at heq
      have := List.append_inj' heq (by simp)
      simp only [List.cons.injEq, and_true, Event.mk.injEq, Option.some.injEq] at this
      obtain ⟨_, _, herr⟩ := this
      exact ⟨rfl, by rw [hfl, herr]⟩
    · exfalso
      rw [hev, hpost] at heq
      have heq2 : pre1 ++ [Event.mk call1 (some err1)] =
          (pre ++ Event.mk call (some err) :: post1) ++ [z] := by
        rw [heq]; simp
      have := (List.append_inj' heq2 (by simp)).1
      have hmem : Event.mk call (some err) ∈ pre1 := by rw [this]; simp
      have := hpre1 _ hmem
      simp at this

/-- A failed call is the last store call of the pass, and the pass returns its error, a
not-found error turned into nil. -/
theorem Reconcile_failed_call (r : AppDeploymentReconciler) (req : Request) (s : Store)
    (f : Nat → Option StoreError) (pre post : List Event) (call : Call) (err : StoreError)
    (h : logOf r req s f = pre ++ Event.mk call (some err) :: post) :
    post = [] ∧ outcomeOf r req s f = Outcome.returned (IgnoreNotFound err) := by
  obtain ⟨hpost, hfl⟩ :=
    failed_call_is_last _ pre post call err _ (Reconcile_trace r req s f).1 h
  exact ⟨hpost, by simpa using hfl⟩

/-- After a failed call of the Build step, the pass has neither listed nor updated
DeploymentConfigs, and the stored DeploymentConfigs are as they were. -/
theorem Reconcile_failed_build_step (r : AppDeploymentReconciler) (req : Request)
    (s : Store) (f : Nat → Option StoreError) (pre post : List Event) (call : Call)
    (err : StoreError) (hcall : call.inBuildStep = true)
    (h : logOf r req s f = pre ++ Event.mk call (some err) :: post) :
    (∀ e ∈ logOf r req s f, e.call ≠ Call.ListDeploymentConfigs req.Namespace ∧
        ∀ d, e.call ≠ Call.UpdateDeploymentConfig d) ∧
      (storeAfter r req s f).deploymentConfigs = s.deploymentConfigs := by
  obtain ⟨hA, hB⟩ := Reconcile_phases r req s f
  have hmem : Event.mk call (some err) ∈ logOf r req s f := by rw [h]; simp
  have hno : ∀ e ∈ logOf r req s f, e.call ≠ Call.ListDeploymentConfigs req.Namespace ∧
      ∀ d, e.call ≠ Call.UpdateDeploymentConfig d := by
    intro e he
    constructor
    · intro hc
      have := hA e he (Or.inl hc) _ hmem hcall
      simp at this
    · intro d hc
      have := hA e he (Or.inr ⟨d, hc⟩) _ hmem hcall
      simp at this
  exact ⟨hno, hB (fun e he d => (hno e he).2 d)⟩

/-! ## What the trigger loop computes -/

/-- The changed trigger of line 156. -/
theorem rewriteTrigger_go_inv (V : String) (t t1 : DeploymentTriggerPolicy)
    (h : rewriteTrigger V t = Step.go t1) :
    ∃ params repo tag rest,
      t.Type_ = DeploymentTriggerOnImageChange ∧
      t.ImageChangeParams = some params ∧
      Split params.From.Name ':' = repo :: tag :: rest ∧
      tag ≠ V ∧
      t1 = { t with ImageChangeParams := some { params with
              From := { params.From with Name := Join [repo, V] ":" } } } := by
  unfold rewriteTrigger at h
  by_cases hty : t.Type_ = DeploymentTriggerOnImageChange
  · rw [if_pos hty] at h
    cases hp : t.ImageChangeParams with
    | none => rw [hp] at h; simp at h
    | some params =>
      rw [hp] at h
      simp only at h
      cases hsp : Split params.From.Name ':' with
      | nil => rw [hsp] at h; simp at h
      | cons repo tl =>
        cases tl with
        | nil => rw [hsp] at h; simp at h
        | cons tag rest =>
          rw [hsp] at h
          simp only at h
          by_cases htag : tag = V
          · rw [if_pos htag] at h; simp at h
          · rw [if_neg htag] at h
            simp only [Step.go.injEq] at h
            exact ⟨params, repo, tag, rest, hty, rfl, hsp, htag, h.symm⟩
  · rw [if_neg hty] at h
    simp at h

/-- A rewritten trigger is left alone by the next pass, when the desired version has no
`:`. -/
theorem rewriteTrigger_settled (V : String) (t t1 : DeploymentTriggerPolicy)
    (hV : ':' ∉ V.data) (h : rewriteTrigger V t = Step.go t1) :
    rewriteTrigger V t1 = Step.skip := by
  obtain ⟨params, repo, tag, rest, hty, _, hsp, _, rfl⟩ := rewriteTrigger_go_inv V t t1 h
  unfold rewriteTrigger
  simp only [hty, if_true, Split_Join_of_head params.From.Name repo tag V rest hsp hV]

/-- Unless the iteration panics, a trigger is rewritten exactly when it is stale. -/
theorem rewriteTrigger_isGo_eq_isStale (V : String) (t : DeploymentTriggerPolicy)
    (hok : ∀ p, rewriteTrigger V t ≠ Step.panic p) :
    (rewriteTrigger V t).isGo = t.isStale V := by
  unfold rewriteTrigger at hok ⊢
  unfold DeploymentTriggerPolicy.isStale comparedTag DeploymentTriggerPolicy.imageName
  by_cases hty : t.Type_ = DeploymentTriggerOnImageChange
  · simp only [if_pos hty] at hok ⊢
    cases hp : t.ImageChangeParams with
    | none => rw [hp] at hok; exact absurd rfl (hok _)
    | some params =>
      rw [hp] at hok
      simp only at hok ⊢
      cases hsp : Split params.From.Name ':' with
      | nil => rw [hsp] at hok; exact absurd rfl (hok _)
      | cons repo tl =>
        cases tl with
        | nil => rw [hsp] at hok; exact absurd rfl (hok _)
        | cons tag rest =>
          simp only
          by_cases htag : tag = V
          · simp [htag, Step.isGo, hty]
          · simp [htag, Step.isGo, hty]
  · simp [hty, Step.isGo]

/-- The image reference of a rewritten trigger is `repository:V`. -/
theorem rewriteTrigger_go_image (V : String) (t t1 : DeploymentTriggerPolicy)
    (h : rewriteTrigger V t = Step.go t1) :
    t1.Type_ = t.Type_ ∧ t1.imageName = keptRepository t.imageName ++ ":" ++ V := by
  obtain ⟨params, repo, tag, rest, _, hp, hsp, _, rfl⟩ := rewriteTrigger_go_inv V t t1 h
  refine ⟨rfl, ?_⟩
  simp [DeploymentTriggerPolicy.imageName, keptRepository, hp, hsp, Join]

/-- The number of `Update` calls of the trigger loop is the number of rewritten
triggers. -/
theorem trigEvents_count (V : String) (v : DeploymentConfig) :
    ∀ (todo done : List DeploymentTriggerPolicy),
      (trigEvents V v done todo).countP (Event.updatesDeploymentConfig v.Namespace v.Name) =
        todo.countP (fun t => (rewriteTrigger V t).isGo) := by
  intro todo
  induction todo with
  | nil => intro done; simp [trigEvents]
  | cons trig rest ih =>
    intro done
    rw [trigEvents]
    cases hr : rewriteTrigger V trig with
    | skip => simp [List.countP_cons, hr, Step.isGo, ih]
    | panic p => simp [List.countP_cons, hr, Step.isGo, ih]
    | go trig1 =>
      simp [List.countP_cons, hr, Step.isGo, ih, Event.updatesDeploymentConfig]

theorem dcEvents_count_zero (V : String) (ns name : String) (l : List DeploymentConfig)
    (hk : ∀ y ∈ l, y.key ≠ (ns, name)) :
    (l.flatMap (dcEvents V)).countP (Event.updatesDeploymentConfig ns name) = 0 := by
  apply countP_flatMap_eq_zero
  intro y hy e he
  obtain ⟨_, d, hd, h1, h2⟩ := dcEvents_call V y e he
  by_contra hp
  simp only [Event.updatesDeploymentConfig, hd, Bool.not_eq_false, decide_eq_true_eq] at hp
  exact hk y hy (by simp [DeploymentConfig.key, ← h1, ← h2, hp.1, hp.2])

theorem bcEvents_not_deploymentConfig (V : String) (ns name : String)
    (l : List BuildConfig) :
    (l.flatMap (bcEvents V)).countP (Event.updatesDeploymentConfig ns name) = 0 := by
  apply countP_flatMap_eq_zero
  intro y _ e he
  unfold bcEvents at he
  cases hr : rewriteBuildConfig V y with
  | skip => rw [hr] at he; simp at he
  | panic p => rw [hr] at he; simp at he
  | go v1 =>
    rw [hr] at he
    simp only at he
    cases hb : newBuild v1 with
    | error p => rw [hb] at he; simp at he
    | ok b =>
      rw [hb] at he
      simp only [List.mem_cons, List.mem_singleton, List.not_mem_nil, or_false] at he
      rcases he with rfl | rfl <;> rfl

/-! ## The stored DeploymentConfigs -/

theorem fixedDeploymentConfig_of_not_any (V : String) (v : DeploymentConfig)
    (h : anyRewritten V v.Spec.Triggers = false) : fixedDeploymentConfig V v = v := by
  unfold fixedDeploymentConfig
  rw [map_fixedTrigger_of_not_any V _ h]

theorem dcApply_keys (V : String) (s : Store) (v : DeploymentConfig) :
    (dcApply V s v).deploymentConfigs.map DeploymentConfig.key =
      s.deploymentConfigs.map DeploymentConfig.key := by
  unfold dcApply
  split
  · simp only [Store.putDeploymentConfig, List.map_map]
    apply List.map_congr_left
    intro x _
    simp only [Function.comp, DeploymentConfig.key, fixedDeploymentConfig]
    split
    · rename_i hx
      rw [hx.1, hx.2]
    · rfl
  · rfl

theorem foldl_dcApply_keys (V : String) :
    ∀ (items : List DeploymentConfig) (s : Store),
      (items.foldl (dcApply V) s).deploymentConfigs.map DeploymentConfig.key =
        s.deploymentConfigs.map DeploymentConfig.key := by
  intro items
  induction items with
  | nil => intro s; rfl
  | cons v rest ih => intro s; rw [List.foldl_cons, ih, dcApply_keys]

theorem dcApply_mem_of_key_ne (V : String) (s : Store) (v x : DeploymentConfig)
    (hx : x ∈ s.deploymentConfigs) (hk : v.key ≠ x.key) :
    x ∈ (dcApply V s v).deploymentConfigs := by
  unfold dcApply
  split
  · simp only [Store.putDeploymentConfig, List.mem_map]
    refine ⟨x, hx, ?_⟩
    rw [if_neg]
    intro hxe
    apply hk
    simp only [DeploymentConfig.key, Prod.mk.injEq]
    exact ⟨hxe.1.symm, hxe.2.symm⟩
  · exact hx

theorem foldl_dcApply_mem_of_key_ne (V : String) (x : DeploymentConfig) :
    ∀ (items : List DeploymentConfig) (s : Store), x ∈ s.deploymentConfigs →
      (∀ v ∈ items, v.key ≠ x.key) → x ∈ (items.foldl (dcApply V) s).deploymentConfigs := by
  intro items
  induction items with
  | nil => intro s hx _; exact hx
  | cons v rest ih =>
    intro s hx hk
    rw [List.foldl_cons]
    exact ih _ (dcApply_mem_of_key_ne V s v x hx (hk v (List.mem_cons_self _ _)))
      (fun w hw => hk w (List.mem_cons_of_mem _ hw))

theorem dcApply_mem_fixed (V : String) (s : Store) (v : DeploymentConfig)
    (hv : v ∈ s.deploymentConfigs) :
    fixedDeploymentConfig V v ∈ (dcApply V s v).deploymentConfigs := by
  unfold dcApply
  by_cases hany : anyRewritten V v.Spec.Triggers = true
  · rw [if_pos hany]
    simp only [Store.putDeploymentConfig, List.mem_map]
    exact ⟨v, hv, by simp [fixedDeploymentConfig]⟩
  · rw [if_neg hany, fixedDeploymentConfig_of_not_any V v (by simpa using hany)]
    exact hv

/-! ## A converged store -/

theorem buildConfigLoop_settled (V : String) :
    ∀ (items : List BuildConfig) (c : Client),
      (∀ v ∈ items, rewriteBuildConfig V v = Step.skip) →
      buildConfigLoop V items c = (c, Flow.next) := by
  intro items
  induction items with
  | nil => intro c _; rfl
  | cons v rest ih =>
    intro c h
    rw [buildConfigLoop]
    have hv : buildConfigBody V v c = (c, Flow.next) := by
      unfold buildConfigBody
      rw [h v (List.mem_cons_self _ _)]
    rw [hv]
    exact ih c (fun w hw => h w (List.mem_cons_of_mem _ hw))

theorem triggerLoop_settled (V : String) (v : DeploymentConfig) :
    ∀ (todo done : List DeploymentTriggerPolicy) (c : Client),
      (∀ t ∈ todo, rewriteTrigger V t = Step.skip) →
      triggerLoop V v done todo c = (c, Flow.next) := by
  intro todo
  induction todo with
  | nil => intro done c _; rfl
  | cons trig rest ih =>
    intro done c h
    rw [triggerLoop, h trig (List.mem_cons_self _ _)]
    exact ih _ c (fun w hw => h w (List.mem_cons_of_mem _ hw))

theorem deployConfigLoop_settled (V : String) :
    ∀ (items : List DeploymentConfig) (c : Client),
      (∀ v ∈ items, ∀ t ∈ v.Spec.Triggers, rewriteTrigger V t = Step.skip) →
      deployConfigLoop V items c = (c, Flow.next) := by
  intro items
  induction items with
  | nil => intro c _; rfl
  | cons v rest ih =>
    intro c h
    rw [deployConfigLoop, triggerLoop_settled V v _ _ c (h v (List.mem_cons_self _ _))]
    exact ih c (fun w hw => h w (List.mem_cons_of_mem _ hw))

/-- On a store whose listed BuildConfigs and triggers are all left alone, a pass makes no
write and leaves the store as it is, whichever calls fail. -/
theorem Reconcile_settled (r : AppDeploymentReconciler) (req : Request) (s : Store)
    (f : Nat → Option StoreError)
    (hbc : ∀ V, desiredVersionIn r req s = some V →
      ∀ v ∈ listedBuildConfigs req s, rewriteBuildConfig V v = Step.skip)
    (hdc : ∀ V, desiredVersionIn r req s = some V →
      ∀ v ∈ listedDeploymentConfigs req s, ∀ t ∈ v.Spec.Triggers,
        rewriteTrigger V t = Step.skip) :
    (∀ e ∈ logOf r req s f, e.call.isWrite = false) ∧ storeAfter r req s f = s := by
  unfold desiredVersionIn at hbc hdc
  unfold logOf storeAfter Reconcile
  simp only [Client.Get, Client.start, Client.record, List.nil_append, List.length_nil]
  cases hf0 : f 0 with
  | some err => simp [Call.isWrite]
  | none =>
    simp only
    cases hfind : s.configMaps.find?
        (fun m => decide (m.Namespace = req.Namespace ∧ m.Name = req.Name)) with
    | none => simp [Call.isWrite]
    | some config =>
      simp only
      rw [hfind] at hbc hdc
      simp only at hbc hdc
      by_cases hname : config.Name ≠ r.CfgMapName
      · rw [if_pos hname]
        simp [Call.isWrite]
      · rw [if_neg hname] at hbc hdc ⊢
        simp only [Client.ListBuildConfigs, Client.record, List.length_singleton]
        cases hf1 : f 1 with
        | some err => simp [Call.isWrite]
        | none =>
          simp only
          have hb := buildConfigLoop_settled (desiredVersionOf r config)
            (List.filter (fun x => decide (x.Namespace = req.Namespace)) s.buildConfigs)
            { store := s,
              log := [Event.mk (Call.Get req.Namespace req.Name) none] ++
                [Event.mk (Call.ListBuildConfigs req.Namespace) none],
              faults := f } (hbc _ rfl)
          rw [hb]
          simp only [Client.ListDeploymentConfigs, Client.record]
          cases hf2 : f ([Event.mk (Call.Get req.Namespace req.Name) none] ++
              [Event.mk (Call.ListBuildConfigs req.Namespace) none]).length with
          | some err => simp [Call.isWrite]
          | none =>
            simp only
            have hd := deployConfigLoop_settled (desiredVersionOf r config)
              (List.filter (fun x => decide (x.Namespace = req.Namespace))
                s.deploymentConfigs)
              { store := s,
                log := [Event.mk (Call.Get req.Namespace req.Name) none] ++
                  [Event.mk (Call.ListBuildConfigs req.Namespace) none] ++
                  [Event.mk (Call.ListDeploymentConfigs req.Namespace) none],
                faults := f } (hdc _ rfl)
            rw [hd]
            simp [Call.isWrite]

/-! ## The store after a pass is converged -/

theorem foldl_bcApply_settled (V : String) (ns : String) (hV : ':' ∉ V.data) :
    ∀ (items : List BuildConfig) (s : Store),
      (∀ v ∈ items, bcOK V v) →
      (∀ x ∈ s.buildConfigs, x.Namespace = ns →
        rewriteBuildConfig V x = Step.skip ∨ x ∈ items) →
      ∀ x ∈ (items.foldl (bcApply V) s).buildConfigs, x.Namespace = ns →
        rewriteBuildConfig V x = Step.skip := by
  intro items
  induction items with
  | nil =>
    intro s _ h x hx hxns
    rcases h x hx hxns with h | h
    · exact h
    · simp at h
  | cons v rest ih =>
    intro s hok h
    rw [List.foldl_cons]
    apply ih _ (fun w hw => hok w (List.mem_cons_of_mem _ hw))
    intro x hx hxns
    rcases hok v (List.mem_cons_self _ _) with hskip | ⟨v1, b, hr, hb⟩
    · have hs : bcApply V s v = s := by simp [bcApply, hskip]
      rw [hs] at hx
      rcases h x hx hxns with hx1 | hx1
      · exact Or.inl hx1
      · rcases List.mem_cons.mp hx1 with rfl | hx1
        · exact Or.inl hskip
        · exact Or.inr hx1
    · obtain ⟨hk1, hk2⟩ := rewriteBuildConfig_go_key V v v1 hr
      have hs : (bcApply V s v).buildConfigs = s.buildConfigs.map
          (fun y => if y.Namespace = v1.Namespace ∧ y.Name = v1.Name then v1 else y) := by
        simp [bcApply, hr, hb, Store.putBuildConfig, Store.addBuild]
      rw [hs, List.mem_map] at hx
      obtain ⟨y, hy, hyx⟩ := hx
      by_cases hyk : y.Namespace = v1.Namespace ∧ y.Name = v1.Name
      · rw [if_pos hyk] at hyx
        subst hyx
        exact Or.inl (rewriteBuildConfig_settled V v _ hV hr)
      · rw [if_neg hyk] at hyx
        subst hyx
        rcases h _ hy hxns with hx1 | hx1
        · exact Or.inl hx1
        · rcases List.mem_cons.mp hx1 with rfl | hx1
          · exact absurd ⟨hk1.symm, hk2.symm⟩ hyk
          · exact Or.inr hx1

theorem fixedTrigger_settled (V : String) (hV : ':' ∉ V.data) (t : DeploymentTriggerPolicy)
    (hok : ∀ p, rewriteTrigger V t ≠ Step.panic p) :
    rewriteTrigger V (fixedTrigger V t) = Step.skip := by
  unfold fixedTrigger
  cases hr : rewriteTrigger V t with
  | skip => exact hr
  | panic p => exact absurd hr (hok p)
  | go t1 => exact rewriteTrigger_settled V t t1 hV hr

theorem foldl_dcApply_settled (V : String) (ns : String) (hV : ':' ∉ V.data) :
    ∀ (items : List DeploymentConfig) (s : Store),
      (∀ v ∈ items, dcOK V v) →
      (∀ x ∈ s.deploymentConfigs, x.Namespace = ns →
        (∀ t ∈ x.Spec.Triggers, rewriteTrigger V t = Step.skip) ∨ x ∈ items) →
      ∀ x ∈ (items.foldl (dcApply V) s).deploymentConfigs, x.Namespace = ns →
        ∀ t ∈ x.Spec.Triggers, rewriteTrigger V t = Step.skip := by
  intro items
  induction items with
  | nil =>
    intro s _ h x hx hxns
    rcases h x hx hxns with h | h
    · exact h
    · simp at h
  | cons v rest ih =>
    intro s hok h
    rw [List.foldl_cons]
    apply ih _ (fun w hw => hok w (List.mem_cons_of_mem _ hw))
    intro x hx hxns
    have hvok := hok v (List.mem_cons_self _ _)
    have hfixed : ∀ t ∈ (fixedDeploymentConfig V v).Spec.Triggers,
        rewriteTrigger V t = Step.skip := by
      intro t ht
      simp only [fixedDeploymentConfig, List.mem_map] at ht
      obtain ⟨t0, ht0, rfl⟩ := ht
      exact fixedTrigger_settled V hV t0 (hvok t0 ht0)
    by_cases hany : anyRewritten V v.Spec.Triggers = true
    · have hs : (dcApply V s v).deploymentConfigs = s.deploymentConfigs.map
          (fun y => if y.Namespace = v.Namespace ∧ y.Name = v.Name
            then fixedDeploymentConfig V v else y) := by
        simp [dcApply, hany, Store.putDeploymentConfig, fixedDeploymentConfig]
      rw [hs, List.mem_map] at hx
      obtain ⟨y, hy, hyx⟩ := hx
      by_cases hyk : y.Namespace = v.Namespace ∧ y.Name = v.Name
      · rw [if_pos hyk] at hyx
        subst hyx
        exact Or.inl hfixed
      · rw [if_neg hyk] at hyx
        subst hyx
        rcases h _ hy hxns with hx1 | hx1
        · exact Or.inl hx1
        · rcases List.mem_cons.mp hx1 with rfl | hx1
          · exact absurd ⟨rfl, rfl⟩ hyk
          · exact Or.inr hx1
    · have hany0 : anyRewritten V v.Spec.Triggers = false := by simpa using hany
      have hs : dcApply V s v = s := by simp [dcApply, hany0]
      rw [hs] at hx
      rcases h x hx hxns with hx1 | hx1
      · exact Or.inl hx1
      · rcases List.mem_cons.mp hx1 with rfl | hx1
        · left
          rw [← fixedDeploymentConfig_of_not_any V x hany0]
          exact hfixed
        · exact Or.inr hx1

theorem desiredVersionIn_congr (r : AppDeploymentReconciler) (req : Request) (s s1 : Store)
    (h : s1.configMaps = s.configMaps) :
    desiredVersionIn r req s1 = desiredVersionIn r req s := by
  unfold desiredVersionIn
  rw [h]

/-! ## References with exactly one `:` -/

theorem splitChars_length (sep : Char) :
    ∀ l : List Char, (splitChars sep l).length = l.count sep + 1 := by
  intro l
  induction l with
  | nil => simp [splitChars]
  | cons c cs ih =>
    rw [splitChars_cons]
    by_cases hc : c = sep
    · rw [if_pos hc]
      simp [hc, ih]
    · rw [if_neg hc]
      cases hs : splitChars sep cs with
      | nil => exact absurd hs (splitChars_ne_nil _ _)
      | cons p ps =>
        rw [hs] at ih
        simp only [List.length_cons] at ih ⊢
        rw [ih, List.count_cons_of_ne (fun e => hc e.symm)]

/-- A reference with exactly one `:` splits into a repository and a tag. -/
theorem Split_of_one_colon (ref : String) (h : colonCount ref = 1) :
    ∃ repo tag, Split ref ':' = [repo, tag] := by
  have hlen : (Split ref ':').length = 2 := by
    unfold Split colonCount at *
    rw [List.length_map, splitChars_length, h]
  exact List.length_eq_two.mp hlen

/-- For a reference with exactly one `:`, the tag the code compares is the tag after the
last `:`, and the repository the code keeps is everything before the last `:`. -/
theorem one_colon_parse (ref : String) (h : colonCount ref = 1) :
    comparedTag ref = tagAfterLastColon ref ∧
      keptRepository ref = repositoryBeforeLastColon ref := by
  obtain ⟨repo, tag, hsp⟩ := Split_of_one_colon ref h
  simp [comparedTag, tagAfterLastColon, keptRepository, repositoryBeforeLastColon, hsp, Join]

theorem isStale_eq_hasStaleTag (V : String) (t : DeploymentTriggerPolicy)
    (h : t.Type_ = DeploymentTriggerOnImageChange → colonCount t.imageName = 1) :
    t.isStale V = t.hasStaleTag V := by
  unfold DeploymentTriggerPolicy.isStale DeploymentTriggerPolicy.hasStaleTag
  by_cases hty : t.Type_ = DeploymentTriggerOnImageChange
  · rw [(one_colon_parse t.imageName (h hty)).1]
  · simp [hty]

/-! ## Drifted objects in a pass that runs to its end -/

/-- A drifted Git BuildConfig in a pass that runs to its end with every store call
succeeding, in terms of the pieces of the split reference the code works with: one
`Update`, one `Create`, and the stored object rewritten. -/
theorem buildConfig_pass_of_compared_tag (r : AppDeploymentReconciler) (req : Request)
    (s : Store) (V : String) (bc : BuildConfig)
    (hV : desiredVersionIn r req s = some V)
    (hcolon : ':' ∉ V.data)
    (hret : outcomeOf r req s noFaults = Outcome.returned none)
    (hkeys : (s.buildConfigs.map BuildConfig.key).Nodup)
    (hmem : bc ∈ s.buildConfigs)
    (hns : bc.Namespace = req.Namespace)
    (hgit : bc.Spec.CommonSpec.Source.Type_ = "Git")
    (hdrift : comparedTag bc.outputName ≠ some V)
    (hlo : -2 ^ 63 ≤ bc.Status.LastVersion)
    (hhi : bc.Status.LastVersion < 2 ^ 63 - 1) :
    (logOf r req s noFaults).countP (Event.updatesBuildConfig bc.Namespace bc.Name) = 1 ∧
    (logOf r req s noFaults).countP (Event.createsBuildFor bc.Namespace bc.Name) = 1 ∧
    ∃ bc1, bc1 ∈ (storeAfter r req s noFaults).buildConfigs ∧
      (∀ x ∈ (storeAfter r req s noFaults).buildConfigs, x.key = bc.key → x = bc1) ∧
      bc1.key = bc.key ∧
      bc1.outputName = keptRepository bc.outputName ++ ":" ++ V ∧
      tagAfterLastColon bc1.outputName = some V ∧
      comparedTag bc1.outputName = some V ∧
      bc1.gitRef = some V ∧
      bc1.Status.LastVersion = bc.Status.LastVersion + 1 := by
  obtain ⟨hlog, hstore, hbok, _⟩ := Reconcile_complete r req s V hV hret
  have hlisted : bc ∈ listedBuildConfigs req s := by
    simp [listedBuildConfigs, hmem, hns]
  have hnd : ((listedBuildConfigs req s).map BuildConfig.key).Nodup :=
    nodup_keys_filter BuildConfig.key s.buildConfigs _ hkeys
  obtain ⟨pre, post, hsplit, hpre, hpost⟩ :=
    split_of_nodup_keys BuildConfig.key _ bc hnd hlisted
  have hnskip : rewriteBuildConfig V bc ≠ Step.skip := by
    rw [Ne, rewriteBuildConfig_skip_iff]
    intro h
    rcases h.2 with h | h
    · exact h hgit
    · exact hdrift h
  obtain ⟨bc1, b, hr, hb⟩ : ∃ v1 b, rewriteBuildConfig V bc = Step.go v1 ∧
      newBuild v1 = Except.ok b := by
    rcases hbok bc hlisted with h | h
    · exact absurd h hnskip
    · exact h
  have hev : bcEvents V bc =
      [⟨Call.UpdateBuildConfig bc1, none⟩, ⟨Call.CreateBuild b, none⟩] := by
    simp [bcEvents, hr, hb]
  obtain ⟨hk1, hk2⟩ := rewriteBuildConfig_go_key V bc bc1 hr
  obtain ⟨hbns, _, hown, _⟩ := newBuild_ok_inv bc1 b hb
  have hpre0 := bcEvents_count_zero V bc.Namespace bc.Name pre hpre
  have hpost0 := bcEvents_count_zero V bc.Namespace bc.Name post hpost
  have hdc0 := dcEvents_not_buildConfig V bc.Namespace bc.Name (listedDeploymentConfigs req s)
  refine ⟨?_, ?_, bc1, ?_, ?_, ?_, ?_⟩
  · rw [hlog, hsplit]
    simp only [List.flatMap_append, List.flatMap_cons, List.countP_append, hpre0.1, hpost0.1,
      hdc0.1, hev]
    simp [List.countP_cons, Event.updatesBuildConfig, hk1, hk2]
  · rw [hlog, hsplit]
    simp only [List.flatMap_append, List.flatMap_cons, List.countP_append, hpre0.2, hpost0.2,
      hdc0.2, hev]
    simp [List.countP_cons, Event.createsBuildFor, hown, hbns, hk1, hk2]
  · have hmid : bc1 ∈ (bcApply V (pre.foldl (bcApply V) s) bc).buildConfigs :=
      bcApply_mem_go V _ bc bc1 b (foldl_bcApply_mem_of_key_ne V bc pre s hmem hpre) hr hb
    rw [hstore, foldl_dcApply_buildConfigs, hsplit, List.foldl_append, List.foldl_cons]
    refine foldl_bcApply_mem_of_key_ne V bc1 post _ hmid ?_
    intro y hy
    have hkey : bc1.key = bc.key := by simp [BuildConfig.key, hk1, hk2]
    rw [hkey]
    exact hpost y hy
  · intro x hx hxk
    have hkey : bc1.key = bc.key := by simp [BuildConfig.key, hk1, hk2]
    have hmid : bc1 ∈ (bcApply V (pre.foldl (bcApply V) s) bc).buildConfigs :=
      bcApply_mem_go V _ bc bc1 b (foldl_bcApply_mem_of_key_ne V bc pre s hmem hpre) hr hb
    have hbc1 : bc1 ∈ (storeAfter r req s noFaults).buildConfigs := by
      rw [hstore, foldl_dcApply_buildConfigs, hsplit, List.foldl_append, List.foldl_cons]
      refine foldl_bcApply_mem_of_key_ne V bc1 post _ hmid ?_
      intro y hy
      rw [hkey]
      exact hpost y hy
    have hnd2 : ((storeAfter r req s noFaults).buildConfigs.map BuildConfig.key).Nodup := by
      rw [hstore, foldl_dcApply_buildConfigs, foldl_bcApply_keys]
      exact hkeys
    exact List.inj_on_of_nodup_map hnd2 hx hbc1 (hxk.trans hkey.symm)
  · simp [BuildConfig.key, hk1, hk2]
  · obtain ⟨target, repo, tag, rest, git, hto, _, hsp, _, _, hbc1⟩ :=
      rewriteBuildConfig_go_inv V bc bc1 hr
    have hsj := Split_Join_of_head target.Name repo tag V rest hsp hcolon
    have hout : bc1.outputName = Join [repo, V] ":" := by
      rw [hbc1]
      rfl
    have hkept : keptRepository bc.outputName = repo := by
      simp [keptRepository, BuildConfig.outputName, hto, hsp]
    refine ⟨?_, ?_, ?_, ?_, ?_⟩
    · rw [hout, hkept]
      rfl
    · rw [hout]
      simp [tagAfterLastColon, hsj]
    · rw [hout]
      simp [comparedTag, hsj]
    · rw [hbc1]
      rfl
    · rw [hbc1]
      exact wrapInt64_of_range _ (by omega) (by omega)


/-- A DeploymentConfig in a pass that runs to its end with every store call succeeding,
in terms of the pieces of the split reference the code works with: one `Update` per
rewritten trigger, and the DeploymentConfig as the trigger loop leaves it is the stored
one. -/
theorem deploymentConfig_pass_of_compared_tag (r : AppDeploymentReconciler)
    (req : Request) (s : Store) (V : String) (dc : DeploymentConfig)
    (hV : desiredVersionIn r req s = some V)
    (hret : outcomeOf r req s noFaults = Outcome.returned none)
    (hkeys : (s.deploymentConfigs.map DeploymentConfig.key).Nodup)
    (hmem : dc ∈ s.deploymentConfigs)
    (hns : dc.Namespace = req.Namespace) :
    (logOf r req s noFaults).countP (Event.updatesDeploymentConfig dc.Namespace dc.Name) =
      dc.Spec.Triggers.countP (DeploymentTriggerPolicy.isStale V) ∧
    fixedDeploymentConfig V dc ∈ (storeAfter r req s noFaults).deploymentConfigs ∧
    (∀ x ∈ (storeAfter r req s noFaults).deploymentConfigs, x.key = dc.key →
      x = fixedDeploymentConfig V dc) ∧
    (∀ t ∈ dc.Spec.Triggers, ∀ p, rewriteTrigger V t ≠ Step.panic p) := by
  obtain ⟨hlog, hstore, _, hdok⟩ := Reconcile_complete r req s V hV hret
  have hlisted : dc ∈ listedDeploymentConfigs req s := by
    simp [listedDeploymentConfigs, hmem, hns]
  have hnd : ((listedDeploymentConfigs req s).map DeploymentConfig.key).Nodup :=
    nodup_keys_filter DeploymentConfig.key s.deploymentConfigs _ hkeys
  obtain ⟨pre, post, hsplit, hpre, hpost⟩ :=
    split_of_nodup_keys DeploymentConfig.key _ dc hnd hlisted
  have hok : ∀ t ∈ dc.Spec.Triggers, ∀ p, rewriteTrigger V t ≠ Step.panic p :=
    hdok dc hlisted
  have hcount : (dcEvents V dc).countP (Event.updatesDeploymentConfig dc.Namespace dc.Name) =
      dc.Spec.Triggers.countP (DeploymentTriggerPolicy.isStale V) := by
    unfold dcEvents
    rw [trigEvents_count]
    apply List.countP_congr
    intro t ht
    rw [rewriteTrigger_isGo_eq_isStale V t (hok t ht)]
  have hs1 : ((listedBuildConfigs req s).foldl (bcApply V) s).deploymentConfigs =
      s.deploymentConfigs := foldl_bcApply_deploymentConfigs V _ s
  have hmid : fixedDeploymentConfig V dc ∈ (dcApply V (pre.foldl (dcApply V)
      ((listedBuildConfigs req s).foldl (bcApply V) s)) dc).deploymentConfigs :=
    dcApply_mem_fixed V _ dc
      (foldl_dcApply_mem_of_key_ne V dc pre _ (by rw [hs1]; exact hmem) hpre)
  have hkey : (fixedDeploymentConfig V dc).key = dc.key := rfl
  have hdc1 : fixedDeploymentConfig V dc ∈ (storeAfter r req s noFaults).deploymentConfigs := by
    rw [hstore, hsplit, List.foldl_append, List.foldl_cons]
    exact foldl_dcApply_mem_of_key_ne V _ post _ hmid (fun y hy => hpost y hy)
  refine ⟨?_, hdc1, ?_, hok⟩
  · rw [hlog, hsplit]
    simp only [List.flatMap_append, List.flatMap_cons, List.countP_append,
      dcEvents_count_zero V _ _ pre hpre, dcEvents_count_zero V _ _ post hpost,
      bcEvents_not_deploymentConfig, hcount]
    simp [List.countP_cons, Event.updatesDeploymentConfig]
  · intro x hx hxk
    have hnd2 : ((storeAfter r req s noFaults).deploymentConfigs.map
        DeploymentConfig.key).Nodup := by
      rw [hstore, foldl_dcApply_keys, hs1]
      exact hkeys
    exact List.inj_on_of_nodup_map hnd2 hx hdc1 (hxk.trans hkey.symm)

/-! ## Claims -/

/-- C1, amended.  Let the pass find the desired version `V`, let `V` have no `:`, and let
the pass run to its end with every store call succeeding.  Then for every Git BuildConfig
of the reconciled namespace whose output reference has exactly one `:`, whose tag differs
from `V` and whose counter is below the largest `int64`, the pass performs exactly one
`Update` of that BuildConfig and exactly one `Create` of a Build for it, and afterwards the
stored BuildConfig has the output reference `repository:V`, whose tag is `V`, the git ref
`V` and a counter greater by 1. -/
theorem drifted_git_buildConfig_converges (r : AppDeploymentReconciler) (req : Request)
    (s : Store) (V : String) (bc : BuildConfig)
    (hV : desiredVersionIn r req s = some V)
    (hcolon : ':' ∉ V.data)
    (hret : outcomeOf r req s noFaults = Outcome.returned none)
    (hkeys : (s.buildConfigs.map BuildConfig.key).Nodup)
    (hmem : bc ∈ s.buildConfigs)
    (hns : bc.Namespace = req.Namespace)
    (hgit : bc.Spec.CommonSpec.Source.Type_ = "Git")
    (hone : colonCount bc.outputName = 1)
    (hdrift : tagAfterLastColon bc.outputName ≠ some V)
    (hlo : -2 ^ 63 ≤ bc.Status.LastVersion)
    (hhi : bc.Status.LastVersion < 2 ^ 63 - 1) :
    (logOf r req s noFaults).countP (Event.updatesBuildConfig bc.Namespace bc.Name) = 1 ∧
    (logOf r req s noFaults).countP (Event.createsBuildFor bc.Namespace bc.Name) = 1 ∧
    ∃ bc1, bc1 ∈ (storeAfter r req s noFaults).buildConfigs ∧
      (∀ x ∈ (storeAfter r req s noFaults).buildConfigs, x.key = bc.key → x = bc1) ∧
      bc1.key = bc.key ∧
      bc1.outputName = repositoryBeforeLastColon bc.outputName ++ ":" ++ V ∧
      tagAfterLastColon bc1.outputName = some V ∧
      bc1.gitRef = some V ∧
      bc1.Status.LastVersion = bc.Status.LastVersion + 1 := by
  obtain ⟨htag, hrepo⟩ := one_colon_parse bc.outputName hone
  obtain ⟨h1, h2, bc1, hm, hu, hk, ho, ht, _, hg, hc⟩ :=
    buildConfig_pass_of_compared_tag r req s V bc hV hcolon hret hkeys hmem hns hgit
      (by rw [htag]; exact hdrift) hlo hhi
  exact ⟨h1, h2, bc1, hm, hu, hk, by rw [← hrepo]; exact ho, ht, hg, hc⟩

/-- Witness of C1, amended: the example of the specification.  Output `registry/api:v2`,
ref `v2`, counter 5 and desired version `v3` give one `Update`, one `Create`, and the stored
output `registry/api:v3`, ref `v3`, counter 6. -/
theorem drifted_git_buildConfig_converges_witness :
    (logOf exReconciler exRequest exStore noFaults).countP
        (Event.updatesBuildConfig exApi.Namespace exApi.Name) = 1 ∧
    (logOf exReconciler exRequest exStore noFaults).countP
        (Event.createsBuildFor exApi.Namespace exApi.Name) = 1 ∧
    ∃ bc1, bc1 ∈ (storeAfter exReconciler exRequest exStore noFaults).buildConfigs ∧
      (∀ x ∈ (storeAfter exReconciler exRequest exStore noFaults).buildConfigs,
        x.key = exApi.key → x = bc1) ∧
      bc1.key = exApi.key ∧
      bc1.outputName = repositoryBeforeLastColon exApi.outputName ++ ":" ++ "v3" ∧
      tagAfterLastColon bc1.outputName = some "v3" ∧
      bc1.gitRef = some "v3" ∧
      bc1.Status.LastVersion = exApi.Status.LastVersion + 1 :=
  drifted_git_buildConfig_converges exReconciler exRequest exStore "v3" exApi
    (by decide) (by decide) (by decide) (by decide) (by decide) (by decide) (by decide)
    (by decide) (by decide) (by decide) (by decide)

/-- Counterexample to C1 as stated: with the desired version `v3:rc` every store call of
the pass succeeds and the drifted Git BuildConfig `api` is updated once and gets one Build,
but the stored output reference is `registry/api:v3:rc`: its tag, after the last `:`, is
`rc`, and the tag the code compares is `v3`; neither is the desired version. -/
theorem convergence_fails_for_version_with_colon :
    desiredVersionIn exReconciler exRequest colonStore = some "v3:rc" ∧
    outcomeOf exReconciler exRequest colonStore noFaults = Outcome.returned none ∧
    (∀ e ∈ logOf exReconciler exRequest colonStore noFaults, e.err = none) ∧
    exApi ∈ colonStore.buildConfigs ∧
    exApi.Spec.CommonSpec.Source.Type_ = "Git" ∧
    tagAfterLastColon exApi.outputName = some "v2" ∧
    (storeAfter exReconciler exRequest colonStore noFaults).buildConfigs =
      [exBuildConfig "api" "Git" "registry/api:v3:rc" "v3:rc" 6 (some [("app", "api")])] ∧
    tagAfterLastColon "registry/api:v3:rc" = some "rc" ∧
    comparedTag "registry/api:v3:rc" = some "v3" ∧
    ¬ (∀ x ∈ (storeAfter exReconciler exRequest colonStore noFaults).buildConfigs,
        x.key = exApi.key → tagAfterLastColon x.outputName = some "v3:rc") := by
  decide

/-- C7.  A BuildConfig whose source type is not Git gets no `Update` and no Build in a
pass, whatever its output reference and the desired version are, and whichever store calls
fail: no event of the pass is an `Update` of it or a `Create` of a Build owned by it. -/
theorem nonGit_buildConfig_not_written (r : AppDeploymentReconciler) (req : Request)
    (s : Store) (f : Nat → Option StoreError) (bc : BuildConfig)
    (hkeys : (s.buildConfigs.map BuildConfig.key).Nodup)
    (hmem : bc ∈ s.buildConfigs)
    (hnongit : bc.Spec.CommonSpec.Source.Type_ ≠ "Git") :
    ∀ e ∈ logOf r req s f,
      e.updatesBuildConfig bc.Namespace bc.Name = false ∧
      e.createsBuildFor bc.Namespace bc.Name = false := by
  intro e he
  rcases (Reconcile_trace r req s f).2 e he with h | h | h | ⟨d, h⟩ | ⟨V, v, hv, v1, hr, h⟩
  · simp [Event.updatesBuildConfig, Event.createsBuildFor, h]
  · simp [Event.updatesBuildConfig, Event.createsBuildFor, h]
  · simp [Event.updatesBuildConfig, Event.createsBuildFor, h]
  · simp [Event.updatesBuildConfig, Event.createsBuildFor, h]
  · have hvs : v ∈ s.buildConfigs := (List.mem_filter.mp hv).1
    obtain ⟨hk1, hk2⟩ := rewriteBuildConfig_go_key V v v1 hr
    have hgit := rewriteBuildConfig_go_git V v v1 hr
    have hne : ¬ (v1.Namespace = bc.Namespace ∧ v1.Name = bc.Name) := by
      intro hk
      have hkey : v.key = bc.key := by
        simp only [BuildConfig.key, Prod.mk.injEq]
        exact ⟨hk1.symm.trans hk.1, hk2.symm.trans hk.2⟩
      have := List.inj_on_of_nodup_map hkeys hvs hmem hkey
      subst this
      exact hnongit hgit
    rcases h with h | ⟨b, hb, h⟩
    · simp only [Event.updatesBuildConfig, Event.createsBuildFor, h, and_true]
      simpa using hne
    · obtain ⟨hbns, _, hown, _⟩ := newBuild_ok_inv v1 b hb
      simp only [Event.updatesBuildConfig, Event.createsBuildFor, h, hown, hbns, true_and]
      simpa using hne

/-- Witness of C7: the Docker BuildConfig `base`, whose output reference `registry/base`
has no `:`, next to the drifted Git BuildConfig `api`. -/
theorem nonGit_buildConfig_not_written_witness :
    exBase.Spec.CommonSpec.Source.Type_ ≠ "Git" ∧
    comparedTag exBase.outputName = none ∧
    ∀ e ∈ logOf exReconciler exRequest mixedStore noFaults,
      e.updatesBuildConfig exBase.Namespace exBase.Name = false ∧
      e.createsBuildFor exBase.Namespace exBase.Name = false :=
  ⟨by decide, by decide,
    nonGit_buildConfig_not_written exReconciler exRequest mixedStore noFaults exBase
      (by decide) (by decide) (by decide)⟩

/-- C5, amended.  When the `Create` of a Build fails with AlreadyExists, `Reconcile`
returns that error and ends the pass there: the failed `Create` is the last store call,
the DeploymentConfigs are neither listed nor updated, and the stored DeploymentConfigs
are as before. -/
theorem create_alreadyExists_ends_pass (r : AppDeploymentReconciler) (req : Request)
    (s : Store) (f : Nat → Option StoreError) (pre post : List Event) (b : Build)
    (h : logOf r req s f =
      pre ++ Event.mk (Call.CreateBuild b) (some StoreError.AlreadyExists) :: post) :
    post = [] ∧
    outcomeOf r req s f = Outcome.returned (some StoreError.AlreadyExists) ∧
    (∀ e ∈ logOf r req s f, e.call ≠ Call.ListDeploymentConfigs req.Namespace ∧
      ∀ d, e.call ≠ Call.UpdateDeploymentConfig d) ∧
    (storeAfter r req s f).deploymentConfigs = s.deploymentConfigs := by
  obtain ⟨hpost, ho⟩ := Reconcile_failed_call r req s f pre post _ _ h
  obtain ⟨hno, hst⟩ := Reconcile_failed_build_step r req s f pre post
    (Call.CreateBuild b) StoreError.AlreadyExists rfl h
  exact ⟨hpost, ho, hno, hst⟩

/-- Witness of C5, amended: the Build `api-6` exists already and the `Create`, the fourth
store call of the pass, fails with AlreadyExists. -/
theorem create_alreadyExists_ends_pass_witness :
    ([] : List Event) = [] ∧
    outcomeOf exReconciler exRequest raceStore (failAt 3 StoreError.AlreadyExists) =
      Outcome.returned (some StoreError.AlreadyExists) ∧
    (∀ e ∈ logOf exReconciler exRequest raceStore (failAt 3 StoreError.AlreadyExists),
      e.call ≠ Call.ListDeploymentConfigs exRequest.Namespace ∧
      ∀ d, e.call ≠ Call.UpdateDeploymentConfig d) ∧
    (storeAfter exReconciler exRequest raceStore
      (failAt 3 StoreError.AlreadyExists)).deploymentConfigs = raceStore.deploymentConfigs :=
  create_alreadyExists_ends_pass exReconciler exRequest raceStore
    (failAt 3 StoreError.AlreadyExists)
    [⟨Call.Get "prod" "app-config", none⟩, ⟨Call.ListBuildConfigs "prod", none⟩,
      ⟨Call.UpdateBuildConfig exApiV3, none⟩] [] exBuildApi6 (by decide)

/-- Counterexample to C5 as stated: the `Create` of the Build of the drifted Git
BuildConfig `api` fails with AlreadyExists, and `Reconcile` returns that error; the
DeploymentConfig `api-deploy` of the namespace, whose trigger is at `v2`, is not
processed and keeps its trigger. -/
theorem alreadyExists_is_returned_as_error :
    logOf exReconciler exRequest raceStore (failAt 3 StoreError.AlreadyExists) =
      [⟨Call.Get "prod" "app-config", none⟩, ⟨Call.ListBuildConfigs "prod", none⟩,
       ⟨Call.UpdateBuildConfig exApiV3, none⟩,
       ⟨Call.CreateBuild exBuildApi6, some StoreError.AlreadyExists⟩] ∧
    outcomeOf exReconciler exRequest raceStore (failAt 3 StoreError.AlreadyExists) =
      Outcome.returned (some StoreError.AlreadyExists) ∧
    (storeAfter exReconciler exRequest raceStore
      (failAt 3 StoreError.AlreadyExists)).deploymentConfigs =
      [exDeploy "api-deploy" ["registry/api:v2"]] := by
  decide

/-- C8, amended.  When a store call of the Build step (the list of BuildConfigs, the
`Update` of a BuildConfig or the `Create` of a Build) fails with NotFound, `Reconcile`
swallows the error and returns converged at once: the failed call is the last store call
of the pass, the DeploymentConfigs are neither listed nor updated, and the stored
DeploymentConfigs are as before. -/
theorem notFound_in_build_step_ends_pass (r : AppDeploymentReconciler) (req : Request)
    (s : Store) (f : Nat → Option StoreError) (pre post : List Event) (call : Call)
    (hcall : call.inBuildStep = true)
    (h : logOf r req s f = pre ++ Event.mk call (some StoreError.NotFound) :: post) :
    post = [] ∧
    outcomeOf r req s f = Outcome.returned none ∧
    (∀ e ∈ logOf r req s f, e.call ≠ Call.ListDeploymentConfigs req.Namespace ∧
      ∀ d, e.call ≠ Call.UpdateDeploymentConfig d) ∧
    (storeAfter r req s f).deploymentConfigs = s.deploymentConfigs := by
  obtain ⟨hpost, ho⟩ := Reconcile_failed_call r req s f pre post _ _ h
  obtain ⟨hno, hst⟩ := Reconcile_failed_build_step r req s f pre post _ _ hcall h
  exact ⟨hpost, ho, hno, hst⟩

/-- Witness of C8, amended: the `Update` of the BuildConfig `api`, the third store call of
the pass, fails with NotFound. -/
theorem notFound_in_build_step_ends_pass_witness :
    ([] : List Event) = [] ∧
    outcomeOf exReconciler exRequest exStore (failAt 2 StoreError.NotFound) =
      Outcome.returned none ∧
    (∀ e ∈ logOf exReconciler exRequest exStore (failAt 2 StoreError.NotFound),
      e.call ≠ Call.ListDeploymentConfigs exRequest.Namespace ∧
      ∀ d, e.call ≠ Call.UpdateDeploymentConfig d) ∧
    (storeAfter exReconciler exRequest exStore
      (failAt 2 StoreError.NotFound)).deploymentConfigs = exStore.deploymentConfigs :=
  notFound_in_build_step_ends_pass exReconciler exRequest exStore
    (failAt 2 StoreError.NotFound)
    [⟨Call.Get "prod" "app-config", none⟩, ⟨Call.ListBuildConfigs "prod", none⟩] []
    (Call.UpdateBuildConfig exApiV3) (by decide) (by decide)

/-- Counterexample to C8 as stated: the `Update` of the BuildConfig `api` fails with
NotFound; `Reconcile` returns converged with that call as its last one, the
DeploymentConfigs are never listed, and `api-deploy` keeps its trigger at `v2`. -/
theorem notFound_skips_deployment_step :
    logOf exReconciler exRequest exStore (failAt 2 StoreError.NotFound) =
      [⟨Call.Get "prod" "app-config", none⟩, ⟨Call.ListBuildConfigs "prod", none⟩,
       ⟨Call.UpdateBuildConfig exApiV3, some StoreError.NotFound⟩] ∧
    outcomeOf exReconciler exRequest exStore (failAt 2 StoreError.NotFound) =
      Outcome.returned none ∧
    (storeAfter exReconciler exRequest exStore
      (failAt 2 StoreError.NotFound)).deploymentConfigs =
      [exDeploy "api-deploy" ["registry/api:v2"]] ∧
    (exDeploy "api-deploy" ["registry/api:v2"]).Spec.Triggers.any
      (DeploymentTriggerPolicy.isStale "v3") = true := by
  decide

/-- C3, amended.  Let the pass find the desired version `V` and run to its end with every
store call succeeding.  Then for every DeploymentConfig of the reconciled namespace whose
image-change triggers each have exactly one `:` in their image reference, the pass issues
one `Update` per stale trigger (M Updates for M image-change triggers whose tag differs
from `V`, none for M = 0), and afterwards the stored DeploymentConfig has every stale
trigger rewritten to `repository:V` and every other trigger unchanged. -/
theorem deploymentConfig_updated_once_per_stale_trigger (r : AppDeploymentReconciler)
    (req : Request) (s : Store) (V : String) (dc : DeploymentConfig)
    (hV : desiredVersionIn r req s = some V)
    (hret : outcomeOf r req s noFaults = Outcome.returned none)
    (hkeys : (s.deploymentConfigs.map DeploymentConfig.key).Nodup)
    (hmem : dc ∈ s.deploymentConfigs)
    (hns : dc.Namespace = req.Namespace)
    (hone : ∀ t ∈ dc.Spec.Triggers, t.Type_ = DeploymentTriggerOnImageChange →
      colonCount t.imageName = 1) :
    (logOf r req s noFaults).countP (Event.updatesDeploymentConfig dc.Namespace dc.Name) =
      dc.Spec.Triggers.countP (DeploymentTriggerPolicy.hasStaleTag V) ∧
    ∃ dc1, dc1 ∈ (storeAfter r req s noFaults).deploymentConfigs ∧
      (∀ x ∈ (storeAfter r req s noFaults).deploymentConfigs, x.key = dc.key → x = dc1) ∧
      dc1.key = dc.key ∧
      List.Forall₂
        (fun t t1 =>
          (t.hasStaleTag V = true ∧ t1.Type_ = t.Type_ ∧
            t1.imageName = repositoryBeforeLastColon t.imageName ++ ":" ++ V) ∨
          (t.hasStaleTag V = false ∧ t1 = t))
        dc.Spec.Triggers dc1.Spec.Triggers := by
  obtain ⟨hcount, hdc1, huniq, hok⟩ :=
    deploymentConfig_pass_of_compared_tag r req s V dc hV hret hkeys hmem hns
  refine ⟨?_, fixedDeploymentConfig V dc, hdc1, huniq, rfl, ?_⟩
  · rw [hcount]
    apply List.countP_congr
    intro t ht
    rw [isStale_eq_hasStaleTag V t (hone t ht)]
  · show List.Forall₂ _ dc.Spec.Triggers (dc.Spec.Triggers.map (fixedTrigger V))
    rw [List.forall₂_map_right_iff, List.forall₂_same]
    intro t ht
    have hgo := rewriteTrigger_isGo_eq_isStale V t (hok t ht)
    rw [isStale_eq_hasStaleTag V t (hone t ht)] at hgo
    unfold fixedTrigger
    cases hr : rewriteTrigger V t with
    | skip =>
      rw [hr] at hgo
      exact Or.inr ⟨hgo.symm, rfl⟩
    | panic p => exact absurd hr (hok t ht p)
    | go t1 =>
      rw [hr] at hgo
      obtain ⟨hty1, himg⟩ := rewriteTrigger_go_image V t t1 hr
      obtain ⟨_, _, _, _, hty, _, _, _, _⟩ := rewriteTrigger_go_inv V t t1 hr
      exact Or.inl ⟨hgo.symm, hty1,
        by rw [himg, (one_colon_parse t.imageName (hone t ht hty)).2]⟩

/-- Witness of C3, amended: `web-deploy` has three image-change triggers, two of them
stale for the desired version `v3`; the pass issues two Updates for it. -/
theorem deploymentConfig_updated_once_per_stale_trigger_witness :
    exWebDeploy.Spec.Triggers.countP (DeploymentTriggerPolicy.hasStaleTag "v3") = 2 ∧
    ((logOf exReconciler exRequest staleStore noFaults).countP
        (Event.updatesDeploymentConfig exWebDeploy.Namespace exWebDeploy.Name) =
      exWebDeploy.Spec.Triggers.countP (DeploymentTriggerPolicy.hasStaleTag "v3") ∧
    ∃ dc1, dc1 ∈ (storeAfter exReconciler exRequest staleStore noFaults).deploymentConfigs ∧
      (∀ x ∈ (storeAfter exReconciler exRequest staleStore noFaults).deploymentConfigs,
        x.key = exWebDeploy.key → x = dc1) ∧
      dc1.key = exWebDeploy.key ∧
      List.Forall₂
        (fun t t1 =>
          (t.hasStaleTag "v3" = true ∧ t1.Type_ = t.Type_ ∧
            t1.imageName = repositoryBeforeLastColon t.imageName ++ ":" ++ "v3") ∨
          (t.hasStaleTag "v3" = false ∧ t1 = t))
        exWebDeploy.Spec.Triggers dc1.Spec.Triggers) :=
  ⟨by decide,
    deploymentConfig_updated_once_per_stale_trigger exReconciler exRequest staleStore "v3"
      exWebDeploy (by decide) (by decide) (by decide) (by decide) (by decide) (by decide)⟩

/-- Counterexample to C3 as stated: `web-deploy` has N = 3 image-change triggers of which
M = 2 are stale, every store call of the pass succeeds, and the pass issues two Updates
for it, one per stale trigger, not one. -/
theorem two_stale_triggers_two_updates :
    exWebDeploy.Spec.Triggers.countP (DeploymentTriggerPolicy.hasStaleTag "v3") = 2 ∧
    outcomeOf exReconciler exRequest staleStore noFaults = Outcome.returned none ∧
    (∀ e ∈ logOf exReconciler exRequest staleStore noFaults, e.err = none) ∧
    (logOf exReconciler exRequest staleStore noFaults).countP
      (Event.updatesDeploymentConfig "prod" "web-deploy") = 2 ∧
    (logOf exReconciler exRequest staleStore noFaults).filter
        (Event.updatesDeploymentConfig "prod" "web-deploy") =
      [⟨Call.UpdateDeploymentConfig
          (exDeploy "web-deploy" ["registry/web:v3", "registry/web:v3", "registry/worker:v1"]),
          none⟩,
       ⟨Call.UpdateDeploymentConfig
          (exDeploy "web-deploy" ["registry/web:v3", "registry/web:v3", "registry/worker:v3"]),
          none⟩] := by
  decide

/-- C2, amended.  Let the desired version the pass finds, if any, contain no `:` (the
empty version of an absent key included), and let a first pass run to its end with every
store call succeeding.  Then a second pass on the resulting store makes no store write,
no `Update` and no `Create`, whichever of its calls fail, and leaves the store as it is. -/
theorem second_pass_makes_no_write (r : AppDeploymentReconciler) (req : Request)
    (s : Store) (f2 : Nat → Option StoreError)
    (hcolon : ∀ V, desiredVersionIn r req s = some V → ':' ∉ V.data)
    (hret : outcomeOf r req s noFaults = Outcome.returned none) :
    (∀ e ∈ logOf r req (storeAfter r req s noFaults) f2, e.call.isWrite = false) ∧
    storeAfter r req (storeAfter r req s noFaults) f2 = storeAfter r req s noFaults := by
  cases hd : desiredVersionIn r req s with
  | none =>
    have h1 := (Reconcile_settled r req s noFaults
      (fun V hV => by rw [hd] at hV; cases hV) (fun V hV => by rw [hd] at hV; cases hV)).2
    rw [h1]
    exact Reconcile_settled r req s f2
      (fun V hV => by rw [hd] at hV; cases hV) (fun V hV => by rw [hd] at hV; cases hV)
  | some V =>
    have hV := hcolon V hd
    obtain ⟨_, hstore, hbok, hdok⟩ := Reconcile_complete r req s V hd hret
    have hcm : (storeAfter r req s noFaults).configMaps = s.configMaps := by
      rw [hstore, foldl_dcApply_configMaps, foldl_bcApply_configMaps]
    have hd1 : desiredVersionIn r req (storeAfter r req s noFaults) = some V := by
      rw [desiredVersionIn_congr r req s _ hcm, hd]
    have hbcs : ∀ x ∈ (storeAfter r req s noFaults).buildConfigs,
        x.Namespace = req.Namespace → rewriteBuildConfig V x = Step.skip := by
      rw [hstore, foldl_dcApply_buildConfigs]
      apply foldl_bcApply_settled V req.Namespace hV _ s hbok
      intro x hx hxns
      exact Or.inr (by simp [listedBuildConfigs, hx, hxns])
    have hdcs : ∀ x ∈ (storeAfter r req s noFaults).deploymentConfigs,
        x.Namespace = req.Namespace →
        ∀ t ∈ x.Spec.Triggers, rewriteTrigger V t = Step.skip := by
      rw [hstore]
      apply foldl_dcApply_settled V req.Namespace hV _ _ hdok
      intro x hx hxns
      rw [foldl_bcApply_deploymentConfigs] at hx
      exact Or.inr (by simp [listedDeploymentConfigs, hx, hxns])
    apply Reconcile_settled
    · intro V1 hV1 v hv
      rw [hd1] at hV1
      cases hV1
      obtain ⟨hv1, hv2⟩ := List.mem_filter.mp hv
      exact hbcs v hv1 (by simpa using hv2)
    · intro V1 hV1 v hv
      rw [hd1] at hV1
      cases hV1
      obtain ⟨hv1, hv2⟩ := List.mem_filter.mp hv
      exact hdcs v hv1 (by simpa using hv2)

/-- Witness of C2, amended: after the pass of the example of the specification, a second
pass makes no write. -/
theorem second_pass_makes_no_write_witness :
    (storeAfter exReconciler exRequest exStore noFaults).buildConfigs = [exApiV3] ∧
    ((∀ e ∈ logOf exReconciler exRequest (storeAfter exReconciler exRequest exStore noFaults)
        noFaults, e.call.isWrite = false) ∧
    storeAfter exReconciler exRequest (storeAfter exReconciler exRequest exStore noFaults)
        noFaults = storeAfter exReconciler exRequest exStore noFaults) :=
  ⟨by decide,
    second_pass_makes_no_write exReconciler exRequest exStore noFaults
      (by decide) (by decide)⟩

/-- Counterexample to C2 as stated: with the desired version `v3:rc` the first pass runs
to successful completion, and the second pass on the resulting store, again with every
call succeeding, updates the BuildConfig `api` once more, creates the Build `api-7` and
updates the DeploymentConfig once more. -/
theorem second_pass_writes_for_version_with_colon :
    desiredVersionIn exReconciler exRequest colonStore = some "v3:rc" ∧
    outcomeOf exReconciler exRequest colonStore noFaults = Outcome.returned none ∧
    (∀ e ∈ logOf exReconciler exRequest colonStore noFaults, e.err = none) ∧
    outcomeOf exReconciler exRequest (storeAfter exReconciler exRequest colonStore noFaults)
      noFaults = Outcome.returned none ∧
    ((logOf exReconciler exRequest (storeAfter exReconciler exRequest colonStore noFaults)
      noFaults).filter (fun e => e.call.isWrite)).length = 3 ∧
    ((storeAfter exReconciler exRequest
      (storeAfter exReconciler exRequest colonStore noFaults) noFaults).builds.map
        (fun b => b.Name)) = ["api-6", "api-7"] := by
  decide

/-- C4, the code at the failing input.  With the Git BuildConfig `bad`, whose output
reference `registry/bad` has no `:`, listed before the drifted `web`, the pass panics with
an index out of range at `targetParts[1]` after the two reads: nothing is skipped, `web`
and the DeploymentConfigs are not written.  A trigger reference without `:` ends the pass
with the same panic before the drifted DeploymentConfig after it is reached. -/
theorem malformed_reference_panics :
    outcomeOf exReconciler exRequest malformedStore noFaults =
      Outcome.panicked PanicKind.indexOutOfRange ∧
    logOf exReconciler exRequest malformedStore noFaults =
      [⟨Call.Get "prod" "app-config", none⟩, ⟨Call.ListBuildConfigs "prod", none⟩] ∧
    storeAfter exReconciler exRequest malformedStore noFaults = malformedStore ∧
    comparedTag exWeb.outputName = some "v2" ∧
    outcomeOf exReconciler exRequest malformedTriggerStore noFaults =
      Outcome.panicked PanicKind.indexOutOfRange ∧
    storeAfter exReconciler exRequest malformedTriggerStore noFaults =
      malformedTriggerStore := by
  decide

/-- C6, the code at the failing input.  The Git BuildConfig with output
`host:5000/repo:v3` has the tag `v3`, the desired version, but the pass compares
`5000/repo`, the text between the first and the second `:`: it updates the BuildConfig,
whose output becomes `host:v3` and whose counter becomes 6, and creates the Build
`api-6`. -/
theorem converged_reference_with_port_is_rewritten :
    tagAfterLastColon exPortV3.outputName = some "v3" ∧
    desiredVersionIn exReconciler exRequest portConvergedStore = some "v3" ∧
    comparedTag exPortV3.outputName = some "5000/repo" ∧
    (logOf exReconciler exRequest portConvergedStore noFaults).countP
      (Event.updatesBuildConfig "prod" "api") = 1 ∧
    (logOf exReconciler exRequest portConvergedStore noFaults).countP
      (Event.createsBuildFor "prod" "api") = 1 ∧
    (storeAfter exReconciler exRequest portConvergedStore noFaults).buildConfigs =
      [exBuildConfig "api" "Git" "host:v3" "v3" 6 (some [("app", "api")])] ∧
    (storeAfter exReconciler exRequest portConvergedStore noFaults).builds.map
      (fun b => b.Name) = ["api-6"] := by
  decide

/-- C9, the code at the failing input.  For the reference `host:5000/repo:v2` the tag
after the last `:` is `v2` and the repository before it is `host:5000/repo`, but the pass
compares `5000/repo` with the desired version and keeps `host`: the output of the
BuildConfig and the trigger of the DeploymentConfig are both rewritten to `host:v3`, not
to `host:5000/repo:v3`. -/
theorem reference_with_port_is_split_at_first_colon :
    tagAfterLastColon "host:5000/repo:v2" = some "v2" ∧
    repositoryBeforeLastColon "host:5000/repo:v2" = "host:5000/repo" ∧
    comparedTag "host:5000/repo:v2" = some "5000/repo" ∧
    keptRepository "host:5000/repo:v2" = "host" ∧
    outcomeOf exReconciler exRequest portStore noFaults = Outcome.returned none ∧
    (storeAfter exReconciler exRequest portStore noFaults).buildConfigs.map
      BuildConfig.outputName = ["host:v3"] ∧
    (storeAfter exReconciler exRequest portStore noFaults).deploymentConfigs =
      [exDeploy "api-deploy" ["host:v3"]] := by
  decide

/-- C10, the code at the failing input.  For the drifted Git BuildConfig `api` without
labels the `Update` succeeds, and the pass then panics at the write into the nil `Labels`
map (line 109): no Build is passed to `Create`, the store has no Build, and the stored
BuildConfig is already at `v3` with counter 6. -/
theorem buildConfig_without_labels_gets_no_build :
    exApiNoLabels.Labels = none ∧
    outcomeOf exReconciler exRequest noLabelStore noFaults =
      Outcome.panicked PanicKind.nilMap ∧
    logOf exReconciler exRequest noLabelStore noFaults =
      [⟨Call.Get "prod" "app-config", none⟩, ⟨Call.ListBuildConfigs "prod", none⟩,
       ⟨Call.UpdateBuildConfig (exBuildConfig "api" "Git" "registry/api:v3" "v3" 6 none),
         none⟩] ∧
    (storeAfter exReconciler exRequest noLabelStore noFaults).builds = [] ∧
    (storeAfter exReconciler exRequest noLabelStore noFaults).buildConfigs =
      [exBuildConfig "api" "Git" "registry/api:v3" "v3" 6 none] := by
  decide

end AppDeployer
